import Mathlib

/-!
# Verification of the demand-paging simulator

Shallow embedding of the demand-paging virtual-memory simulator
(`demandpaging.c`, the consolidated circular-FIFO-queue variant that the
specification designates as the design of record).  Machine `int`s are
modelled as `Int`/`Nat`; the `unsigned short` page-table entries keep the
source's bit packing (`VALID_BIT_MASK` in the high bit); the C free-frame
array used as a stack is modelled as a list whose head is the top of the
stack (the end of the C array); the circular-buffer swap queue is modelled
as a list whose head is the queue front (its capacity, `MAX_PROCESSES`,
is never exceeded because each of the at most `MAX_PROCESSES` processes
appears in it at most once).
-/

namespace DemandPaging

/-- `#define PAGE_SIZE 4096` -/
def PAGE_SIZE : Nat := 4096

/-- `#define USER_FRAMES 12288` -/
def USER_FRAMES : Nat := 12288

/-- `#define PAGE_TABLE_SIZE 2048` -/
def PAGE_TABLE_SIZE : Nat := 2048

/-- `#define ESSENTIAL_PAGES 10` -/
def ESSENTIAL_PAGES : Nat := 10

/-- `#define VALID_BIT_MASK 0x8000` -/
def VALID_BIT_MASK : Nat := 32768

/-- `#define MAX_PROCESSES 500` -/
def MAX_PROCESSES : Nat := 500

/-- `#define MAX_SEARCHES 100` -/
def MAX_SEARCHES : Nat := 100

/-- `entry & VALID_BIT_MASK` as a residency test. -/
def entryValid (e : Nat) : Bool := e &&& VALID_BIT_MASK != 0

/-- `entry & ~VALID_BIT_MASK` on a 16-bit entry: recover the frame number. -/
def entryFrame (e : Nat) : Nat := e &&& 32767

/-- `frame | VALID_BIT_MASK`: build a valid page-table entry. -/
def mkEntry (f : Nat) : Nat := f ||| VALID_BIT_MASK

/-- The C `Process` struct. -/
structure Process where
  page_table : List Nat
  array_size : Int
  search_indices : List Int
  num_searches : Nat
  current_search : Nat
  frames_allocated : Nat
  is_active : Bool
deriving Repr, DecidableEq

/-- Default used for out-of-range lookups (they never occur on real runs). -/
def defaultProcess : Process :=
  { page_table := [], array_size := 0, search_indices := [], num_searches := 0,
    current_search := 0, frames_allocated := 0, is_active := false }

instance : Inhabited Process := ⟨defaultProcess⟩

/-- The C `SystemState` struct.  `free_frames` is the C stack with the list
head as the top; `swap_queue` is the FIFO with the list head as the front. -/
structure SystemState where
  free_frames : List Nat
  processes : List Process
  swap_queue : List Nat
  page_accesses : Nat
  page_faults : Nat
  num_swaps : Nat
  min_active_processes : Nat
deriving Repr, DecidableEq

/-- `system->processes[i]` (reads are always in bounds on real runs). -/
def getProc (s : SystemState) (i : Nat) : Process :=
  s.processes.getD i defaultProcess

/-- `get_active_process_count`. -/
def activeCount (s : SystemState) : Nat :=
  s.processes.countP (fun p => p.is_active)

/-- The allocation loop shared by `initialize_system` and `swap_in_process`:
`for (i = 0; i < ESSENTIAL_PAGES && num_free_frames > 0; i++)` — pop a frame
from the free stack and install it at page-table index `i`.  `k` counts the
remaining iterations, `i` is the current page-table index. -/
def allocLoop : Nat → Nat → List Nat → List Nat → Nat → List Nat × List Nat × Nat
  | 0, _, pt, free, fa => (pt, free, fa)
  | k + 1, i, pt, free, fa =>
    match free with
    | [] => (pt, free, fa)
    | f :: rest => allocLoop k (i + 1) (pt.set i (mkEntry f)) rest (fa + 1)

/-- The unmap loop of `swap_out_process` and of process completion:
`for (i = 0; i < PAGE_TABLE_SIZE; i++) if (valid) { push frame; entry = 0 }`.
Returns the new page table and the new free stack. -/
def unmapAll : List Nat → List Nat → List Nat × List Nat
  | [], free => ([], free)
  | e :: rest, free =>
    let free' := if entryValid e then entryFrame e :: free else free
    let r := unmapAll rest free'
    ((if entryValid e then 0 else e) :: r.1, r.2)

/-- `swap_out_process` (the variant with the `if (!p->is_active) return;`
guard): release all valid entries, deactivate, enqueue at the rear,
increment the swap counter, record a new minimum active count. -/
def swap_out_process (s : SystemState) (pid : Nat) : SystemState :=
  let p := getProc s pid
  if !p.is_active then s
  else
    let u := unmapAll p.page_table s.free_frames
    let s1 : SystemState :=
      { s with free_frames := u.2,
               processes := s.processes.set pid
                 { p with page_table := u.1, frames_allocated := 0, is_active := false },
               swap_queue := s.swap_queue ++ [pid],
               num_swaps := s.num_swaps + 1 }
    let ac := activeCount s1
    if ac < s1.min_active_processes then { s1 with min_active_processes := ac } else s1

/-- `swap_in_process` (the variant with the `if (p->is_active) return;`
guard): allocate up to `ESSENTIAL_PAGES` frames, activate, increment the
swap counter. -/
def swap_in_process (s : SystemState) (pid : Nat) : SystemState :=
  let p := getProc s pid
  if p.is_active then s
  else
    let a := allocLoop ESSENTIAL_PAGES 0 p.page_table s.free_frames p.frames_allocated
    { s with free_frames := a.2.1,
             processes := s.processes.set pid
               { p with page_table := a.1, frames_allocated := a.2.2, is_active := true },
             num_swaps := s.num_swaps + 1 }

/-- `handle_page_fault`: allocate a free frame and map the page, or swap the
process out and report failure. -/
def handle_page_fault (s : SystemState) (pid : Nat) (page_num : Nat) :
    SystemState × Bool :=
  match h : s.free_frames with
  | f :: rest =>
    let p := getProc s pid
    ({ s with free_frames := rest,
              processes := s.processes.set pid
                { p with page_table := p.page_table.set page_num (mkEntry f),
                         frames_allocated := p.frames_allocated + 1 } }, true)
  | [] => (swap_out_process s pid, false)

/-- The `while (L < R)` loop of `simulate_binary_search`.  Returns the final
state, whether the loop ran to completion (`false` means a failed page fault
swapped the process out and the step was aborted), and — as ghost
instrumentation — the list of page numbers referenced, in order (one per
`system->page_accesses++`). -/
def searchLoop (s : SystemState) (pid : Nat) (key : Int) (L R : Nat) :
    SystemState × Bool × List Nat :=
  if h : L < R then
    let M := (L + R) / 2
    let page_num := M * 4 / PAGE_SIZE + ESSENTIAL_PAGES
    let s1 : SystemState := { s with page_accesses := s.page_accesses + 1 }
    if entryValid ((getProc s1 pid).page_table.getD page_num 0) then
      if key ≤ (M : Int) then
        let r := searchLoop s1 pid key L M
        (r.1, r.2.1, page_num :: r.2.2)
      else
        let r := searchLoop s1 pid key (M + 1) R
        (r.1, r.2.1, page_num :: r.2.2)
    else
      let s2 : SystemState := { s1 with page_faults := s1.page_faults + 1 }
      let hp := handle_page_fault s2 pid page_num
      if hp.2 then
        if key ≤ (M : Int) then
          let r := searchLoop hp.1 pid key L M
          (r.1, r.2.1, page_num :: r.2.2)
        else
          let r := searchLoop hp.1 pid key (M + 1) R
          (r.1, r.2.1, page_num :: r.2.2)
      else
        (hp.1, false, [page_num])
  else (s, true, [])
termination_by R - L
decreasing_by
  all_goals omega

/-- The swap-queue drain loop at the tail of `simulate_binary_search`:
`while (!queueIsEmpty(&q) && num_free_frames >= ESSENTIAL_PAGES) swap_in(dequeue())`.
The queue is passed alongside the state; `drainQueue` below keeps them in
sync.  (`swap_in_process` itself re-checks `is_active`, mirroring the
`!is_active` test at the call site.) -/
def drainGo : SystemState → List Nat → SystemState
  | s, [] => s
  | s, q :: rest =>
    if ESSENTIAL_PAGES ≤ s.free_frames.length then
      drainGo (swap_in_process { s with swap_queue := rest } q) rest
    else s

/-- The full drain of the swap queue. -/
def drainQueue (s : SystemState) : SystemState :=
  drainGo s s.swap_queue

/-- `simulate_binary_search` (the variant with the
`if (!p->is_active || p->current_search >= p->num_searches) return;` guard). -/
def simulate_binary_search (s : SystemState) (pid : Nat) : SystemState :=
  let p := getProc s pid
  if !p.is_active || decide (p.num_searches ≤ p.current_search) then s
  else
    let key := p.search_indices.getD p.current_search 0
    let r := searchLoop s pid key 0 (p.array_size - 1).toNat
    if !r.2.1 then r.1
    else
      let p1 := getProc r.1 pid
      let p2 : Process := { p1 with current_search := p1.current_search + 1 }
      let s2 : SystemState := { r.1 with processes := r.1.processes.set pid p2 }
      if p2.num_searches ≤ p2.current_search then
        let u := unmapAll p2.page_table s2.free_frames
        let s3 : SystemState :=
          { s2 with free_frames := u.2,
                    processes := s2.processes.set pid
                      { p2 with page_table := u.1, frames_allocated := 0 } }
        drainQueue s3
      else s2

/-- `num_swaps / 2` as printed by `print_statistics`. -/
def reportedSwaps (s : SystemState) : Nat := s.num_swaps / 2

/-- Per-process input data read by `initialize_system`. -/
structure ProcInput where
  array_size : Int
  keys : List Int
deriving Repr, DecidableEq

/-- The workload input: searches-per-process and the per-process data. -/
structure Input where
  numSearches : Nat
  procs : List ProcInput
deriving Repr, DecidableEq

/-- The bounds `initialize_system` validates (positive counts within
`MAX_PROCESSES`/`MAX_SEARCHES`, exactly `numSearches` keys per process),
plus the address-space precondition `array_size ≤ 2086913` under which all
page-table indices are in bounds (larger arrays index outside
`page_table[PAGE_TABLE_SIZE]`, which is undefined behaviour in the C). -/
def validInput (inp : Input) : Prop :=
  0 < inp.procs.length ∧ inp.procs.length ≤ MAX_PROCESSES ∧
  0 < inp.numSearches ∧ inp.numSearches ≤ MAX_SEARCHES ∧
  ∀ pi ∈ inp.procs, pi.keys.length = inp.numSearches ∧ pi.array_size ≤ 2086913

instance (inp : Input) : Decidable (validInput inp) := by
  unfold validInput; infer_instance

/-- One process's slice of `initialize_system`: fresh zero page table, then
the essential-page allocation loop. -/
def initProcs (S : Nat) : List ProcInput → List Nat → List Process × List Nat
  | [], free => ([], free)
  | pi :: rest, free =>
    let t := allocLoop ESSENTIAL_PAGES 0 (List.replicate PAGE_TABLE_SIZE 0) free 0
    let p : Process :=
      { page_table := t.1, array_size := pi.array_size, search_indices := pi.keys,
        num_searches := S, current_search := 0, frames_allocated := t.2.2,
        is_active := true }
    let r := initProcs S rest t.2.1
    (p :: r.1, r.2)

/-- `descList n = [n - 1, …, 1, 0]`. -/
def descList : Nat → List Nat
  | 0 => []
  | n + 1 => n :: descList n

/-- The initial free stack: `free_frames[i] = i` for `i < USER_FRAMES` with
`num_free_frames = USER_FRAMES`; as a head-is-top stack that is the range
reversed (frame `USER_FRAMES - 1` is popped first), built here as the
descending list (see `initFreeFrames_eq`). -/
def initFreeFrames : List Nat := descList USER_FRAMES

/-- `initialize_system` after the input has been read and validated. -/
def initSystem (inp : Input) : SystemState :=
  let r := initProcs inp.numSearches inp.procs initFreeFrames
  { free_frames := r.2, processes := r.1, swap_queue := [],
    page_accesses := 0, page_faults := 0, num_swaps := 0,
    min_active_processes := inp.procs.length }

/-- `all_done` of the main loop. -/
def allDone (s : SystemState) : Bool :=
  s.processes.all (fun p => decide (p.num_searches ≤ p.current_search))

/-- `n` iterations of the main scheduling loop (`c` is `active_process`).
Each iteration first tests `all_done`, then runs one `simulate_binary_search`
and advances the round-robin cursor. -/
def runFor : Nat → SystemState → Nat → SystemState
  | 0, s, _ => s
  | n + 1, s, c =>
    if allDone s then s
    else runFor n (simulate_binary_search s c) ((c + 1) % s.processes.length)

/-- States reachable during a run on input `inp`: the initialized state,
closed under scheduler turns (the main loop only ever calls
`simulate_binary_search` on a process id below `num_processes`). -/
inductive Reachable (inp : Input) : SystemState → Prop
  | init : Reachable inp (initSystem inp)
  | step (s : SystemState) (pid : Nat) (hr : Reachable inp s)
      (hp : pid < s.processes.length) :
      Reachable inp (simulate_binary_search s pid)

/-- The reference sequence prescribed by the specification's tie-break rule
(named for the refinement comparison in the workload-sequence claim): while
`[L, R]` has more than one element, reference page
`(M * 4) / PAGE_SIZE + ESSENTIAL_PAGES` at `M = (L + R) / 2`, then narrow
to `[L, M]` when the key is at most `M` and to `[M + 1, R]` otherwise. -/
def specSearchRefs (key : Int) (L R : Nat) : List Nat :=
  if h : L < R then
    let M := (L + R) / 2
    (M * 4 / PAGE_SIZE + ESSENTIAL_PAGES) ::
      (if key ≤ (M : Int) then specSearchRefs key L M else specSearchRefs key (M + 1) R)
  else []
termination_by R - L
decreasing_by
  all_goals omega

/-! ## Frame accounting -/

/-- Number of valid entries of a page table (what `frames_allocated` tracks). -/
def countValid (pt : List Nat) : Nat := (pt.filter (fun e => entryValid e)).length

/-- The multiset of frames held by the valid entries of a page table. -/
def ptFrames (pt : List Nat) : Multiset Nat :=
  ((pt.filter (fun e => entryValid e)).map entryFrame : List Nat)

/-- The multiset of frames held by all processes' valid page-table entries. -/
def framesMS (s : SystemState) : Multiset Nat :=
  (s.processes.map (fun p => ptFrames p.page_table)).sum

/-- The sum over all processes of `frames_allocated`. -/
def sumFA (s : SystemState) : Nat :=
  (s.processes.map (fun p => p.frames_allocated)).sum

/-- Frame conservation: the valid page-table entries of all processes
together with the free pool partition the user frame space exactly. -/
def conserves (s : SystemState) : Prop :=
  framesMS s + ↑s.free_frames = Multiset.range USER_FRAMES

theorem entryValid_mkEntry (f : Nat) : entryValid (mkEntry f) = true := by
  unfold entryValid mkEntry VALID_BIT_MASK
  have h32768 : (32768 : Nat) = 2 ^ 15 := by norm_num
  apply bne_iff_ne.mpr
  intro hc
  have ht : ((f ||| 32768) &&& 32768).testBit 15 = false := by
    rw [hc]; exact Nat.zero_testBit 15
  rw [Nat.testBit_land, Nat.testBit_lor, h32768, Nat.testBit_two_pow_self,
    Bool.or_true, Bool.true_and] at ht
  simp at ht

theorem entryFrame_mkEntry (f : Nat) (h : f < 32768) : entryFrame (mkEntry f) = f := by
  unfold entryFrame mkEntry VALID_BIT_MASK
  have h32768 : (32768 : Nat) = 2 ^ 15 := by norm_num
  have h32767 : (32767 : Nat) = 2 ^ 15 - 1 := by norm_num
  apply Nat.eq_of_testBit_eq
  intro i
  rw [Nat.testBit_land, Nat.testBit_lor, h32768, h32767, Nat.testBit_two_pow_sub_one]
  rcases Nat.lt_or_ge i 15 with hi | hi
  · rw [Nat.testBit_two_pow_of_ne (by omega), Bool.or_false, decide_eq_true hi,
      Bool.and_true]
  · have hf : Nat.testBit f i = false :=
      Nat.testBit_lt_two_pow
        (lt_of_lt_of_le (h32768 ▸ h) (Nat.pow_le_pow_right (by norm_num) hi))
    rw [hf, Bool.false_or, decide_eq_false (by omega), Bool.and_false]

theorem entryValid_zero : entryValid 0 = false := by decide

/-- A generic exchange law for sums over a list update. -/
theorem sum_map_set {α : Type} {M : Type} [AddCommMonoid M] (f : α → M) (d : α)
    (l : List α) (i : Nat) (x : α) (h : i < l.length) :
    ((l.set i x).map f).sum + f (l.getD i d) = (l.map f).sum + f x := by
  induction l generalizing i with
  | nil => simp at h
  | cons a t ih =>
    cases i with
    | zero => simp [List.set, add_comm, add_left_comm]
    | succ j =>
      simp only [List.set, List.map_cons, List.sum_cons, List.getD_cons_succ]
      have := ih j (by simpa using h)
      rw [add_assoc, this, add_assoc]

theorem countValid_nil : countValid [] = 0 := rfl

theorem countValid_le_length (pt : List Nat) : countValid pt ≤ pt.length :=
  List.length_filter_le _ _

theorem card_ptFrames (pt : List Nat) : Multiset.card (ptFrames pt) = countValid pt := by
  unfold ptFrames countValid
  rw [Multiset.coe_card, List.length_map]

/-- If `countValid pt = 0` then every entry of `pt` is invalid. -/
theorem entryValid_of_countValid_zero {pt : List Nat} (h : countValid pt = 0) :
    ∀ e ∈ pt, entryValid e = false := by
  intro e he
  by_contra hc
  have hv : entryValid e = true := by
    cases hev : entryValid e
    · exact absurd hev hc
    · rfl
  have : e ∈ pt.filter (fun e => entryValid e) := List.mem_filter.mpr ⟨he, hv⟩
  have hlen : 0 < (pt.filter (fun e => entryValid e)).length :=
    List.length_pos.mpr (List.ne_nil_of_mem this)
  unfold countValid at h
  omega

/-- Updating an invalid in-bounds slot with a valid entry adds one frame. -/
theorem ptFrames_set_invalid (pt : List Nat) (i : Nat) (v : Nat)
    (hi : i < pt.length) (hinv : entryValid (pt.getD i 0) = false)
    (hv : entryValid v = true) :
    ptFrames (pt.set i v) = entryFrame v ::ₘ ptFrames pt ∧
    countValid (pt.set i v) = countValid pt + 1 := by
  induction pt generalizing i with
  | nil => simp at hi
  | cons a t ih =>
    cases i with
    | zero =>
      rw [List.getD_cons_zero] at hinv
      constructor
      · unfold ptFrames
        simp [List.filter_cons, hinv, hv]
      · unfold countValid
        simp [List.filter_cons, hinv, hv]
    | succ j =>
      rw [List.getD_cons_succ] at hinv
      have hj : j < t.length := by simpa using hi
      obtain ⟨ih1, ih2⟩ := ih j hj hinv
      constructor
      · unfold ptFrames at ih1 ⊢
        simp only [List.set_cons_succ, List.filter_cons]
        cases hav : entryValid a
        · simpa [hav] using ih1
        · simp only [hav, if_true, List.map_cons, ← Multiset.cons_coe]
          rw [ih1, Multiset.cons_swap]
      · unfold countValid at ih2 ⊢
        simp only [List.set_cons_succ, List.filter_cons]
        cases hav : entryValid a <;> simp [hav, ih2, Nat.add_right_comm]

theorem getD_set_self {α : Type} (l : List α) (i : Nat) (x d : α) (h : i < l.length) :
    (l.set i x).getD i d = x := by
  rw [List.getD_eq_getElem?_getD, List.getElem?_set_self h]
  rfl

theorem getD_set_ne {α : Type} (l : List α) {i j : Nat} (x d : α) (h : i ≠ j) :
    (l.set i x).getD j d = l.getD j d := by
  rw [List.getD_eq_getElem?_getD, List.getElem?_set_ne h, ← List.getD_eq_getElem?_getD]

/-! ### `unmapAll` -/

theorem unmapAll_fst (pt free : List Nat) :
    (unmapAll pt free).1 = pt.map (fun e => if entryValid e then 0 else e) := by
  induction pt generalizing free with
  | nil => rfl
  | cons e rest ih => simp only [unmapAll, List.map_cons, ih]

theorem unmapAll_snd (pt free : List Nat) :
    ((unmapAll pt free).2 : Multiset Nat) = ptFrames pt + ↑free := by
  induction pt generalizing free with
  | nil => simp [unmapAll, ptFrames]
  | cons e rest ih =>
    simp only [unmapAll]
    cases hv : entryValid e
    · rw [if_neg (by simp [hv]), ih]
      unfold ptFrames
      simp [List.filter_cons, hv]
    · rw [if_pos (by simp [hv]), ih]
      unfold ptFrames
      simp only [List.filter_cons, hv, if_true, List.map_cons, ← Multiset.cons_coe]
      rw [Multiset.add_cons, Multiset.cons_add]

theorem unmapAll_snd_length (pt free : List Nat) :
    (unmapAll pt free).2.length = countValid pt + free.length := by
  have h := congrArg Multiset.card (unmapAll_snd pt free)
  rw [Multiset.coe_card, Multiset.card_add, Multiset.coe_card, card_ptFrames] at h
  exact h

theorem countValid_unmapAll_fst (pt free : List Nat) :
    countValid (unmapAll pt free).1 = 0 := by
  rw [unmapAll_fst]
  induction pt with
  | nil => rfl
  | cons e rest ih =>
    unfold countValid at ih ⊢
    cases hv : entryValid e <;>
      simp [List.filter_cons, hv, entryValid_zero, ih]

theorem length_unmapAll_fst (pt free : List Nat) :
    (unmapAll pt free).1.length = pt.length := by
  rw [unmapAll_fst, List.length_map]

/-! ### `allocLoop` -/

theorem allocLoop_free (k i : Nat) (pt free : List Nat) (fa : Nat) :
    (allocLoop k i pt free fa).2.1 = free.drop k := by
  induction k generalizing i pt free fa with
  | zero => simp [allocLoop]
  | succ k ih =>
    cases free with
    | nil => simp [allocLoop]
    | cons f rest => simp [allocLoop, ih]

theorem allocLoop_fa (k i : Nat) (pt free : List Nat) (fa : Nat) :
    (allocLoop k i pt free fa).2.2 = fa + min k free.length := by
  induction k generalizing i pt free fa with
  | zero => simp [allocLoop]
  | succ k ih =>
    cases free with
    | nil => simp [allocLoop]
    | cons f rest =>
      simp only [allocLoop, ih, List.length_cons]
      omega

theorem allocLoop_length (k i : Nat) (pt free : List Nat) (fa : Nat) :
    (allocLoop k i pt free fa).1.length = pt.length := by
  induction k generalizing i pt free fa with
  | zero => rfl
  | succ k ih =>
    cases free with
    | nil => rfl
    | cons f rest => simp [allocLoop, ih]

theorem allocLoop_untouched (k i : Nat) (pt free : List Nat) (fa : Nat) (j : Nat)
    (hj : j < i ∨ i + k ≤ j) :
    (allocLoop k i pt free fa).1.getD j 0 = pt.getD j 0 := by
  induction k generalizing i pt free fa with
  | zero => rfl
  | succ k ih =>
    cases free with
    | nil => rfl
    | cons f rest =>
      simp only [allocLoop]
      rw [ih (i + 1) _ rest (fa + 1) (by omega), getD_set_ne _ _ _ (by omega)]

theorem allocLoop_ptFrames (k i : Nat) (pt free : List Nat) (fa : Nat)
    (hinv : ∀ j, i ≤ j → j < i + k → entryValid (pt.getD j 0) = false)
    (hlen : i + k ≤ pt.length)
    (hsmall : ∀ f ∈ free.take k, f < 32768) :
    ptFrames (allocLoop k i pt free fa).1 = ↑(free.take k) + ptFrames pt ∧
    countValid (allocLoop k i pt free fa).1 = countValid pt + min k free.length := by
  induction k generalizing i pt free fa with
  | zero => simp [allocLoop]
  | succ k ih =>
    cases free with
    | nil => simp [allocLoop]
    | cons f rest =>
      simp only [allocLoop, List.length_cons]
      have hif : i < pt.length := by omega
      have hfs : f < 32768 := by
        apply hsmall f
        rw [List.take_succ_cons]
        exact List.mem_cons_self f _
      obtain ⟨hset, hcnt⟩ := ptFrames_set_invalid pt i (mkEntry f) hif
        (hinv i le_rfl (by omega)) (entryValid_mkEntry f)
      have hinv' : ∀ j, i + 1 ≤ j → j < i + 1 + k →
          entryValid ((pt.set i (mkEntry f)).getD j 0) = false := by
        intro j h1 h2
        rw [getD_set_ne _ _ _ (by omega)]
        exact hinv j (by omega) (by omega)
      have hlen' : i + 1 + k ≤ (pt.set i (mkEntry f)).length := by
        rw [List.length_set]; omega
      have hsmall' : ∀ g ∈ rest.take k, g < 32768 := by
        intro g hg
        apply hsmall g
        rw [List.take_succ_cons]
        exact List.mem_cons_of_mem f hg
      obtain ⟨h1, h2⟩ := ih (i + 1) (pt.set i (mkEntry f)) rest (fa + 1) hinv' hlen' hsmall'
      constructor
      · rw [h1, hset, entryFrame_mkEntry f hfs, List.take_succ_cons, ← Multiset.cons_coe,
          Multiset.cons_add, Multiset.add_cons]
      · rw [h2, hcnt]
        omega

theorem allocLoop_valid_slots (k i : Nat) (pt free : List Nat) (fa : Nat)
    (hfree : k ≤ free.length) (hlen : i + k ≤ pt.length) (j : Nat)
    (h1 : i ≤ j) (h2 : j < i + k) :
    entryValid ((allocLoop k i pt free fa).1.getD j 0) = true := by
  induction k generalizing i pt free fa with
  | zero => omega
  | succ k ih =>
    cases free with
    | nil => simp at hfree
    | cons f rest =>
      simp only [allocLoop]
      rcases Nat.eq_or_lt_of_le h1 with he | hlt
      · rw [allocLoop_untouched _ _ _ _ _ _ (Or.inl (by omega)), ← he,
          getD_set_self _ _ _ _ (by omega)]
        exact entryValid_mkEntry f
      · exact ih (i + 1) (pt.set i (mkEntry f)) rest (fa + 1)
          (by simpa using hfree) (by rw [List.length_set]; omega) hlt (by omega)

theorem getD_set_cases {α : Type} (l : List α) (pid i : Nat) (x d : α) :
    (l.set pid x).getD i d = if pid = i ∧ pid < l.length then x else l.getD i d := by
  rw [List.getD_eq_getElem?_getD, List.getElem?_set]
  by_cases he : pid = i
  · subst he
    rcases Nat.lt_or_ge pid l.length with hl | hl
    · rw [if_pos rfl, if_pos hl, if_pos ⟨rfl, hl⟩]
      rfl
    · rw [if_pos rfl, if_neg (by omega), if_neg (by omega),
        List.getD_eq_getElem?_getD, List.getElem?_eq_none (by omega)]
  · rw [if_neg he, if_neg (by tauto), ← List.getD_eq_getElem?_getD]

/-- `getProc` through a process update. -/
theorem getProc_set (s : SystemState) (pid : Nat) (p' : Process) (i : Nat)
    (fr : List Nat) (sq : List Nat) (pa pf ns ma : Nat) :
    getProc { free_frames := fr, processes := s.processes.set pid p', swap_queue := sq,
              page_accesses := pa, page_faults := pf, num_swaps := ns,
              min_active_processes := ma } i =
    if pid = i ∧ pid < s.processes.length then p' else getProc s i := by
  unfold getProc
  exact getD_set_cases s.processes pid i p' defaultProcess

/-! ### Preservation of the per-process static fields -/

/-- `s'` agrees with `s` on process count and on every process's
`current_search`, `num_searches`, `array_size` and `search_indices`. -/
def StaticsEq (s s' : SystemState) : Prop :=
  s'.processes.length = s.processes.length ∧
  ∀ i, (getProc s' i).current_search = (getProc s i).current_search ∧
       (getProc s' i).num_searches = (getProc s i).num_searches ∧
       (getProc s' i).array_size = (getProc s i).array_size ∧
       (getProc s' i).search_indices = (getProc s i).search_indices

theorem staticsEq_refl (s : SystemState) : StaticsEq s s :=
  ⟨rfl, fun _ => ⟨rfl, rfl, rfl, rfl⟩⟩

theorem staticsEq_trans {s t u : SystemState} (h1 : StaticsEq s t) (h2 : StaticsEq t u) :
    StaticsEq s u := by
  obtain ⟨hl1, hf1⟩ := h1
  obtain ⟨hl2, hf2⟩ := h2
  refine ⟨hl2.trans hl1, fun i => ?_⟩
  obtain ⟨a1, b1, c1, d1⟩ := hf1 i
  obtain ⟨a2, b2, c2, d2⟩ := hf2 i
  exact ⟨a2.trans a1, b2.trans b1, c2.trans c1, d2.trans d1⟩

theorem staticsEq_of_processes_eq {s s' : SystemState}
    (h : s'.processes = s.processes) : StaticsEq s s' := by
  refine ⟨by rw [h], fun i => ?_⟩
  unfold getProc
  rw [h]
  exact ⟨rfl, rfl, rfl, rfl⟩

/-- Updating process `pid` with a process sharing its static fields. -/
theorem staticsEq_set (s : SystemState) (pid : Nat) (p' : Process)
    (fr : List Nat) (sq : List Nat) (pa pf ns ma : Nat)
    (hc : p'.current_search = (getProc s pid).current_search)
    (hn : p'.num_searches = (getProc s pid).num_searches)
    (ha : p'.array_size = (getProc s pid).array_size)
    (hs : p'.search_indices = (getProc s pid).search_indices) :
    StaticsEq s { free_frames := fr, processes := s.processes.set pid p',
                  swap_queue := sq, page_accesses := pa, page_faults := pf,
                  num_swaps := ns, min_active_processes := ma } := by
  constructor
  · exact List.length_set s.processes pid p'
  · intro i
    rw [getProc_set]
    split
    · rename_i hcase
      rw [hcase.1] at hc hn ha hs
      exact ⟨hc, hn, ha, hs⟩
    · exact ⟨rfl, rfl, rfl, rfl⟩

theorem staticsEq_swap_out (s : SystemState) (pid : Nat) :
    StaticsEq s (swap_out_process s pid) := by
  simp only [swap_out_process]
  split
  · exact staticsEq_refl s
  · split
    · exact staticsEq_set s pid _ _ _ _ _ _ _ rfl rfl rfl rfl
    · exact staticsEq_set s pid _ _ _ _ _ _ _ rfl rfl rfl rfl

theorem staticsEq_swap_in (s : SystemState) (pid : Nat) :
    StaticsEq s (swap_in_process s pid) := by
  simp only [swap_in_process]
  split
  · exact staticsEq_refl s
  · exact staticsEq_set s pid _ _ _ _ _ _ _ rfl rfl rfl rfl

theorem staticsEq_hpf (s : SystemState) (pid : Nat) (page_num : Nat) :
    StaticsEq s (handle_page_fault s pid page_num).1 := by
  simp only [handle_page_fault]
  split
  · exact staticsEq_set s pid _ _ _ _ _ _ _ rfl rfl rfl rfl
  · exact staticsEq_swap_out s pid

theorem staticsEq_searchLoop (s : SystemState) (pid : Nat) (key : Int) (L R : Nat) :
    StaticsEq s (searchLoop s pid key L R).1 := by
  induction s, pid, key, L, R using searchLoop.induct with
  | case1 s pid key L R h M page_num s1 hvalid hkey ih =>
    rw [searchLoop]
    simp only [dif_pos h, if_pos hvalid, if_pos hkey]
    exact staticsEq_trans (staticsEq_of_processes_eq rfl) ih
  | case2 s pid key L R h M page_num s1 hvalid hkey ih =>
    rw [searchLoop]
    simp only [dif_pos h, if_pos hvalid, if_neg hkey]
    exact staticsEq_trans (staticsEq_of_processes_eq rfl) ih
  | case3 s pid key L R h M page_num s1 hvalid s2 hp hhp hkey ih =>
    rw [searchLoop]
    simp only [dif_pos h, if_neg hvalid, if_pos hhp, if_pos hkey]
    have h1 : StaticsEq s s2 := staticsEq_of_processes_eq rfl
    have h2 := staticsEq_hpf s2 pid page_num
    exact staticsEq_trans (staticsEq_trans h1 h2) ih
  | case4 s pid key L R h M page_num s1 hvalid s2 hp hhp hkey ih =>
    rw [searchLoop]
    simp only [dif_pos h, if_neg hvalid, if_pos hhp, if_neg hkey]
    have h1 : StaticsEq s s2 := staticsEq_of_processes_eq rfl
    have h2 := staticsEq_hpf s2 pid page_num
    exact staticsEq_trans (staticsEq_trans h1 h2) ih
  | case5 s pid key L R h M page_num s1 hvalid s2 hp hhp =>
    rw [searchLoop]
    simp only [dif_pos h, if_neg hvalid, if_neg hhp]
    have h1 : StaticsEq s s2 := staticsEq_of_processes_eq rfl
    have h2 := staticsEq_hpf s2 pid page_num
    exact staticsEq_trans h1 h2
  | case6 s pid key L R h =>
    rw [searchLoop]
    simp only [dif_neg h]
    exact staticsEq_refl s

theorem staticsEq_drainGo (q : List Nat) (s : SystemState) :
    StaticsEq s (drainGo s q) := by
  induction q generalizing s with
  | nil => exact staticsEq_refl s
  | cons a rest ih =>
    unfold drainGo
    split
    · have h1 : StaticsEq s { s with swap_queue := rest } := staticsEq_of_processes_eq rfl
      have h2 := staticsEq_swap_in { s with swap_queue := rest } a
      exact staticsEq_trans (staticsEq_trans h1 h2) (ih _)
    · exact staticsEq_refl s

/-! ### Tracking `is_active` through the operations -/

theorem getProc_default (s : SystemState) (i : Nat) (h : s.processes.length ≤ i) :
    getProc s i = defaultProcess := by
  unfold getProc
  rw [List.getD_eq_getElem?_getD, List.getElem?_eq_none h]
  rfl

theorem getProc_swap_out_other (s : SystemState) (pid i : Nat) (hne : pid ≠ i) :
    getProc (swap_out_process s pid) i = getProc s i := by
  simp only [swap_out_process]
  split
  · rfl
  · split <;> (rw [getProc_set]; rw [if_neg (by tauto)])

theorem getProc_swap_in_other (s : SystemState) (pid i : Nat) (hne : pid ≠ i) :
    getProc (swap_in_process s pid) i = getProc s i := by
  simp only [swap_in_process]
  split
  · rfl
  · rw [getProc_set, if_neg (by tauto)]

theorem getProc_hpf_other (s : SystemState) (pid page_num i : Nat) (hne : pid ≠ i) :
    getProc (handle_page_fault s pid page_num).1 i = getProc s i := by
  simp only [handle_page_fault]
  split
  · rw [getProc_set, if_neg (by tauto)]
  · exact getProc_swap_out_other s pid i hne

theorem is_active_swap_out_self (s : SystemState) (pid : Nat) :
    (getProc (swap_out_process s pid) pid).is_active = false := by
  simp only [swap_out_process]
  split
  · rename_i hg
    rw [Bool.not_eq_true'] at hg
    exact hg
  · rename_i hg
    have hact : (getProc s pid).is_active = true := by
      rcases Bool.eq_false_or_eq_true (getProc s pid).is_active with ht | hf
      · exact ht
      · exact absurd (by rw [hf]; rfl) hg
    have hpid : pid < s.processes.length := by
      by_contra hc
      rw [getProc_default s pid (by omega)] at hact
      exact absurd hact (by decide)
    split <;> (rw [getProc_set, if_pos ⟨rfl, hpid⟩])

theorem is_active_swap_in_mono (s : SystemState) (pid i : Nat)
    (h : (getProc s i).is_active = true) :
    (getProc (swap_in_process s pid) i).is_active = true := by
  by_cases hne : pid = i
  · subst hne
    simp only [swap_in_process]
    split
    · exact h
    · rename_i hg
      rw [h] at hg
      exact absurd rfl hg
  · rw [getProc_swap_in_other s pid i hne]
    exact h

theorem drainGo_active_mono (q : List Nat) (s : SystemState) (i : Nat)
    (h : (getProc s i).is_active = true) :
    (getProc (drainGo s q) i).is_active = true := by
  induction q generalizing s with
  | nil => exact h
  | cons a rest ih =>
    unfold drainGo
    split
    · apply ih
      apply is_active_swap_in_mono
      exact h
    · exact h

theorem is_active_hpf_success (s : SystemState) (pid : Nat) (page_num : Nat)
    (hsucc : (handle_page_fault s pid page_num).2 = true) :
    (getProc (handle_page_fault s pid page_num).1 pid).is_active =
      (getProc s pid).is_active := by
  simp only [handle_page_fault] at hsucc ⊢
  split
  · rw [getProc_set]
    split
    · rfl
    · rfl
  · rename_i hfree
    rw [hfree] at hsucc
    simp at hsucc

theorem is_active_hpf_fail (s : SystemState) (pid : Nat) (page_num : Nat)
    (hfail : (handle_page_fault s pid page_num).2 = false) :
    (getProc (handle_page_fault s pid page_num).1 pid).is_active = false := by
  simp only [handle_page_fault] at hfail ⊢
  split
  · rename_i hfree
    rw [hfree] at hfail
    simp at hfail
  · exact is_active_swap_out_self s pid

theorem searchLoop_abort_inactive (s : SystemState) (pid : Nat) (key : Int) (L R : Nat)
    (hab : (searchLoop s pid key L R).2.1 = false) :
    (getProc (searchLoop s pid key L R).1 pid).is_active = false := by
  induction s, pid, key, L, R using searchLoop.induct with
  | case1 s pid key L R h M page_num s1 hvalid hkey ih =>
    rw [searchLoop] at hab ⊢
    simp only [dif_pos h, if_pos hvalid, if_pos hkey] at hab ⊢
    exact ih hab
  | case2 s pid key L R h M page_num s1 hvalid hkey ih =>
    rw [searchLoop] at hab ⊢
    simp only [dif_pos h, if_pos hvalid, if_neg hkey] at hab ⊢
    exact ih hab
  | case3 s pid key L R h M page_num s1 hvalid s2 hp hhp hkey ih =>
    rw [searchLoop] at hab ⊢
    simp only [dif_pos h, if_neg hvalid, if_pos hhp, if_pos hkey] at hab ⊢
    exact ih hab
  | case4 s pid key L R h M page_num s1 hvalid s2 hp hhp hkey ih =>
    rw [searchLoop] at hab ⊢
    simp only [dif_pos h, if_neg hvalid, if_pos hhp, if_neg hkey] at hab ⊢
    exact ih hab
  | case5 s pid key L R h M page_num s1 hvalid s2 hp hhp =>
    rw [searchLoop]
    simp only [dif_pos h, if_neg hvalid, if_neg hhp]
    exact is_active_hpf_fail s2 pid page_num (by rwa [Bool.not_eq_true] at hhp)
  | case6 s pid key L R h =>
    rw [searchLoop] at hab
    simp only [dif_neg h] at hab
    exact absurd hab (by decide)

theorem searchLoop_complete_active (s : SystemState) (pid : Nat) (key : Int) (L R : Nat)
    (hc : (searchLoop s pid key L R).2.1 = true) :
    (getProc (searchLoop s pid key L R).1 pid).is_active = (getProc s pid).is_active := by
  induction s, pid, key, L, R using searchLoop.induct with
  | case1 s pid key L R h M page_num s1 hvalid hkey ih =>
    rw [searchLoop] at hc ⊢
    simp only [dif_pos h, if_pos hvalid, if_pos hkey] at hc ⊢
    exact ih hc
  | case2 s pid key L R h M page_num s1 hvalid hkey ih =>
    rw [searchLoop] at hc ⊢
    simp only [dif_pos h, if_pos hvalid, if_neg hkey] at hc ⊢
    exact ih hc
  | case3 s pid key L R h M page_num s1 hvalid s2 hp hhp hkey ih =>
    rw [searchLoop] at hc ⊢
    simp only [dif_pos h, if_neg hvalid, if_pos hhp, if_pos hkey] at hc ⊢
    rw [ih hc]
    exact is_active_hpf_success s2 pid page_num hhp
  | case4 s pid key L R h M page_num s1 hvalid s2 hp hhp hkey ih =>
    rw [searchLoop] at hc ⊢
    simp only [dif_pos h, if_neg hvalid, if_pos hhp, if_neg hkey] at hc ⊢
    rw [ih hc]
    exact is_active_hpf_success s2 pid page_num hhp
  | case5 s pid key L R h M page_num s1 hvalid s2 hp hhp =>
    rw [searchLoop] at hc
    simp only [dif_pos h, if_neg hvalid, if_neg hhp] at hc
    exact absurd hc (by decide)
  | case6 s pid key L R h =>
    rw [searchLoop]
    simp only [dif_neg h]

/-! ## Claim theorems: swap-out, swap accounting, drain, fault abort -/

/-- **C4** Swap-Out semantics: for an active process, `swap_out_process`
invalidates all its valid page-table entries, returns every held frame to
the free pool, zeroes its resident count, deactivates it, appends its id to
the swap queue, increments the swap counter, and records the new live
active count when it is a new minimum; it is a no-op on an inactive
process. -/
theorem swap_out_semantics (s : SystemState) (pid : Nat)
    (hpid : pid < s.processes.length) :
    ((getProc s pid).is_active = false → swap_out_process s pid = s) ∧
    ((getProc s pid).is_active = true →
      (getProc (swap_out_process s pid) pid).page_table =
        (getProc s pid).page_table.map (fun e => if entryValid e then 0 else e) ∧
      ((swap_out_process s pid).free_frames : Multiset Nat) =
        ptFrames (getProc s pid).page_table + ↑s.free_frames ∧
      (getProc (swap_out_process s pid) pid).frames_allocated = 0 ∧
      (getProc (swap_out_process s pid) pid).is_active = false ∧
      (swap_out_process s pid).swap_queue = s.swap_queue ++ [pid] ∧
      (swap_out_process s pid).num_swaps = s.num_swaps + 1 ∧
      (swap_out_process s pid).min_active_processes =
        min s.min_active_processes (activeCount (swap_out_process s pid))) := by
  constructor
  · intro hin
    simp only [swap_out_process]
    rw [if_pos (by rw [hin]; rfl)]
  · intro hact
    simp only [swap_out_process]
    rw [if_neg (by rw [hact]; decide)]
    split
    · rename_i hlt
      refine ⟨?_, ?_, ?_, ?_, ?_, ?_, ?_⟩
      · rw [getProc_set, if_pos ⟨rfl, hpid⟩]
        exact unmapAll_fst _ _
      · exact unmapAll_snd _ _
      · rw [getProc_set, if_pos ⟨rfl, hpid⟩]
      · rw [getProc_set, if_pos ⟨rfl, hpid⟩]
      · rfl
      · rfl
      · simp only [activeCount] at hlt ⊢
        omega
    · rename_i hge
      refine ⟨?_, ?_, ?_, ?_, ?_, ?_, ?_⟩
      · rw [getProc_set, if_pos ⟨rfl, hpid⟩]
        exact unmapAll_fst _ _
      · exact unmapAll_snd _ _
      · rw [getProc_set, if_pos ⟨rfl, hpid⟩]
      · rw [getProc_set, if_pos ⟨rfl, hpid⟩]
      · rfl
      · rfl
      · simp only [activeCount] at hge ⊢
        omega

/-- **C5** Swap accounting: `swap_in_process` increments the same
`num_swaps` counter that `swap_out_process` increments, is a no-op on an
already-active process, and the reported swap total is the raw counter
integer-divided by two. -/
theorem swap_accounting (s : SystemState) (pid : Nat) :
    ((getProc s pid).is_active = true → swap_in_process s pid = s) ∧
    ((getProc s pid).is_active = false →
      (swap_in_process s pid).num_swaps = s.num_swaps + 1) ∧
    ((getProc s pid).is_active = true →
      (swap_out_process s pid).num_swaps = s.num_swaps + 1) ∧
    reportedSwaps s = s.num_swaps / 2 := by
  refine ⟨?_, ?_, ?_, rfl⟩
  · intro hact
    simp only [swap_in_process]
    rw [if_pos hact]
  · intro hin
    simp only [swap_in_process]
    rw [if_neg (by rw [hin]; decide)]
  · intro hact
    simp only [swap_out_process]
    rw [if_neg (by rw [hact]; decide)]
    split
    · rfl
    · rfl

theorem drainGo_nil (s : SystemState) : drainGo s [] = s := rfl

theorem drainGo_cons (s : SystemState) (q : Nat) (rest : List Nat) :
    drainGo s (q :: rest) =
      if ESSENTIAL_PAGES ≤ s.free_frames.length then
        drainGo (swap_in_process { s with swap_queue := rest } q) rest
      else s := rfl

theorem drainQueue_active_mono (s : SystemState) (i : Nat)
    (h : (getProc s i).is_active = true) :
    (getProc (drainQueue s) i).is_active = true :=
  drainGo_active_mono s.swap_queue s i h

theorem getProc_mk (fr : List Nat) (l : List Process) (sq : List Nat)
    (pa pf ns ma i : Nat) :
    getProc { free_frames := fr, processes := l, swap_queue := sq,
              page_accesses := pa, page_faults := pf, num_swaps := ns,
              min_active_processes := ma } i = l.getD i defaultProcess := rfl

/-- **C7** Idempotence of the swap-queue drain: with an empty queue or
fewer than `ESSENTIAL_PAGES` free frames the drain changes nothing; and it
dequeues the front process and swaps it in exactly when the queue is
non-empty and at least `ESSENTIAL_PAGES` frames are free. -/
theorem drain_idempotent (s : SystemState) :
    ((s.swap_queue = [] ∨ s.free_frames.length < ESSENTIAL_PAGES) → drainQueue s = s) ∧
    (∀ q rest, s.swap_queue = q :: rest → ESSENTIAL_PAGES ≤ s.free_frames.length →
      drainQueue s = drainGo (swap_in_process { s with swap_queue := rest } q) rest) := by
  constructor
  · intro hc
    unfold drainQueue
    rcases hc with hemp | hlt
    · rw [hemp, drainGo_nil]
    · rcases hq : s.swap_queue with _ | ⟨a, rest⟩
      · exact drainGo_nil s
      · rw [drainGo_cons, if_neg (by omega)]
  · intro q rest hq hfree
    unfold drainQueue
    rw [hq, drainGo_cons, if_pos hfree]

/-- **C3** A failed page fault aborts the step: with no free frame the
fault handler swaps the faulting process out and reports failure, and
whenever `simulate_binary_search` leaves the process inactive (that is, the
step was aborted by a swap-out), the process's `current_search` is
unchanged, so it is rescheduled from the same search index. -/
theorem fault_aborts_step (s : SystemState) (pid : Nat) :
    (s.free_frames = [] → ∀ page_num,
      handle_page_fault s pid page_num = (swap_out_process s pid, false)) ∧
    ((getProc (simulate_binary_search s pid) pid).is_active = false →
      (getProc (simulate_binary_search s pid) pid).current_search =
        (getProc s pid).current_search) := by
  constructor
  · intro hfree page_num
    unfold handle_page_fault
    split
    · rename_i f rest heq
      rw [hfree] at heq
      cases heq
    · rfl
  · intro hinact
    simp only [simulate_binary_search] at hinact ⊢
    set p := getProc s pid with hp
    by_cases hguard :
        ((!p.is_active) || decide (p.num_searches ≤ p.current_search)) = true
    · rw [if_pos hguard] at hinact ⊢
    · rw [if_neg hguard] at hinact ⊢
      set key := p.search_indices.getD p.current_search 0 with hkeydef
      set Rn := (p.array_size - 1).toNat with hRdef
      set r := searchLoop s pid key 0 Rn with hrdef
      by_cases hab : (!r.2.1) = true
      · rw [if_pos hab] at hinact ⊢
        exact ((staticsEq_searchLoop s pid key 0 Rn).2 pid).1
      · rw [if_neg hab] at hinact ⊢
        exfalso
        have hcomp : r.2.1 = true := by
          cases hb : r.2.1
          · rw [hb] at hab
            exact absurd rfl hab
          · rfl
        have hactive : p.is_active = true := by
          cases hb : p.is_active
          · rw [hb] at hguard
            simp at hguard
          · rfl
        have hpid : pid < s.processes.length := by
          by_contra hcon
          rw [hp, getProc_default s pid (by omega)] at hactive
          exact absurd hactive (by decide)
        have hcact : (getProc r.1 pid).is_active = true := by
          rw [hrdef, searchLoop_complete_active s pid key 0 Rn (hrdef ▸ hcomp), ← hp]
          exact hactive
        have hlen : pid < r.1.processes.length := by
          rw [hrdef, (staticsEq_searchLoop s pid key 0 Rn).1]
          exact hpid
        by_cases hfin :
            (getProc r.1 pid).num_searches ≤ (getProc r.1 pid).current_search + 1
        · rw [if_pos hfin] at hinact
          have key2 : ∀ t : SystemState, (getProc t pid).is_active = true →
              (getProc (drainQueue t) pid).is_active = false → False := by
            intro t ht hf
            rw [drainQueue_active_mono t pid ht] at hf
            cases hf
          refine key2 _ ?_ hinact
          rw [getProc_mk, getD_set_cases, if_pos ⟨rfl, by rw [List.length_set]; exact hlen⟩]
          exact hcact
        · rw [if_neg hfin, getProc_mk, getD_set_cases, if_pos ⟨rfl, hlen⟩] at hinact
          rw [hcact] at hinact
          cases hinact

/-! ### A fuel-indexed executable twin of `searchLoop`

`searchLoop` is defined by well-founded recursion on `R - L`, which the
kernel cannot evaluate; `searchGo` is the same loop with an explicit
iteration bound, structurally recursive, and agrees with `searchLoop` for
any sufficient bound. -/

def searchGo : Nat → SystemState → Nat → Int → Nat → Nat → SystemState × Bool × List Nat
  | 0, s, _, _, _, _ => (s, true, [])
  | fuel + 1, s, pid, key, L, R =>
    if L < R then
      let M := (L + R) / 2
      let page_num := M * 4 / PAGE_SIZE + ESSENTIAL_PAGES
      let s1 : SystemState := { s with page_accesses := s.page_accesses + 1 }
      if entryValid ((getProc s1 pid).page_table.getD page_num 0) then
        if key ≤ (M : Int) then
          let r := searchGo fuel s1 pid key L M
          (r.1, r.2.1, page_num :: r.2.2)
        else
          let r := searchGo fuel s1 pid key (M + 1) R
          (r.1, r.2.1, page_num :: r.2.2)
      else
        let s2 : SystemState := { s1 with page_faults := s1.page_faults + 1 }
        let hp := handle_page_fault s2 pid page_num
        if hp.2 then
          if key ≤ (M : Int) then
            let r := searchGo fuel hp.1 pid key L M
            (r.1, r.2.1, page_num :: r.2.2)
          else
            let r := searchGo fuel hp.1 pid key (M + 1) R
            (r.1, r.2.1, page_num :: r.2.2)
        else
          (hp.1, false, [page_num])
    else (s, true, [])

theorem searchLoop_eq_searchGo (s : SystemState) (pid : Nat) (key : Int) (L R : Nat) :
    ∀ fuel, R - L ≤ fuel → searchLoop s pid key L R = searchGo fuel s pid key L R := by
  induction s, pid, key, L, R using searchLoop.induct with
  | case1 s pid key L R h M page_num s1 hvalid hkey ih =>
    intro fuel hf
    have hM : M = (L + R) / 2 := rfl
    cases fuel with
    | zero => omega
    | succ g =>
      rw [searchLoop]
      simp only [dif_pos h, if_pos hvalid, if_pos hkey]
      simp only [searchGo, if_pos h, if_pos hvalid, if_pos hkey]
      rw [ih g (by omega)]
  | case2 s pid key L R h M page_num s1 hvalid hkey ih =>
    intro fuel hf
    have hM : M = (L + R) / 2 := rfl
    cases fuel with
    | zero => omega
    | succ g =>
      rw [searchLoop]
      simp only [dif_pos h, if_pos hvalid, if_neg hkey]
      simp only [searchGo, if_pos h, if_pos hvalid, if_neg hkey]
      rw [ih g (by omega)]
  | case3 s pid key L R h M page_num s1 hvalid s2 hp hhp hkey ih =>
    intro fuel hf
    have hM : M = (L + R) / 2 := rfl
    cases fuel with
    | zero => omega
    | succ g =>
      rw [searchLoop]
      simp only [dif_pos h, if_neg hvalid, if_pos hhp, if_pos hkey]
      simp only [searchGo, if_pos h, if_neg hvalid, if_pos hhp, if_pos hkey]
      rw [ih g (by omega)]
  | case4 s pid key L R h M page_num s1 hvalid s2 hp hhp hkey ih =>
    intro fuel hf
    have hM : M = (L + R) / 2 := rfl
    cases fuel with
    | zero => omega
    | succ g =>
      rw [searchLoop]
      simp only [dif_pos h, if_neg hvalid, if_pos hhp, if_neg hkey]
      simp only [searchGo, if_pos h, if_neg hvalid, if_pos hhp, if_neg hkey]
      rw [ih g (by omega)]
  | case5 s pid key L R h M page_num s1 hvalid s2 hp hhp =>
    intro fuel hf
    cases fuel with
    | zero => omega
    | succ g =>
      rw [searchLoop]
      simp only [dif_pos h, if_neg hvalid, if_neg hhp]
      simp only [searchGo, if_pos h, if_neg hvalid, if_neg hhp]
  | case6 s pid key L R h =>
    intro fuel hf
    cases fuel with
    | zero =>
      rw [searchLoop]
      simp only [dif_neg h, searchGo]
    | succ g =>
      rw [searchLoop]
      simp only [dif_neg h]
      simp only [searchGo, if_neg h]

/-- `simulate_binary_search` with the loop replaced by its fuel twin. -/
def simulateExec (fuel : Nat) (s : SystemState) (pid : Nat) : SystemState :=
  let p := getProc s pid
  if !p.is_active || decide (p.num_searches ≤ p.current_search) then s
  else
    let key := p.search_indices.getD p.current_search 0
    let r := searchGo fuel s pid key 0 (p.array_size - 1).toNat
    if !r.2.1 then r.1
    else
      let p1 := getProc r.1 pid
      let p2 : Process := { p1 with current_search := p1.current_search + 1 }
      let s2 : SystemState := { r.1 with processes := r.1.processes.set pid p2 }
      if p2.num_searches ≤ p2.current_search then
        let u := unmapAll p2.page_table s2.free_frames
        let s3 : SystemState :=
          { s2 with free_frames := u.2,
                    processes := s2.processes.set pid
                      { p2 with page_table := u.1, frames_allocated := 0 } }
        drainQueue s3
      else s2

theorem simulate_eq_exec (s : SystemState) (pid fuel : Nat)
    (hf : ((getProc s pid).array_size - 1).toNat ≤ fuel) :
    simulate_binary_search s pid = simulateExec fuel s pid := by
  simp only [simulate_binary_search, simulateExec]
  rw [searchLoop_eq_searchGo s pid
    ((getProc s pid).search_indices.getD (getProc s pid).current_search 0) 0
    ((getProc s pid).array_size - 1).toNat fuel (by omega)]

/-! ### Concrete states used by the witnesses -/

/-- A tiny concrete state: process 0 active holding frame 0, process 1
suspended and queued, frames 1 and 2 free. -/
def wProcA : Process :=
  { page_table := [mkEntry 0, 0], array_size := 2, search_indices := [0],
    num_searches := 1, current_search := 0, frames_allocated := 1, is_active := true }

def wProcB : Process :=
  { page_table := [0, 0], array_size := 2, search_indices := [0],
    num_searches := 1, current_search := 0, frames_allocated := 0, is_active := false }

def wState : SystemState :=
  { free_frames := [1, 2], processes := [wProcA, wProcB], swap_queue := [1],
    page_accesses := 0, page_faults := 0, num_swaps := 0, min_active_processes := 2 }

/-- A state with no free frames and one active process about to fault. -/
def wProcC : Process :=
  { page_table := List.replicate PAGE_TABLE_SIZE 0, array_size := 100,
    search_indices := [5], num_searches := 1, current_search := 0,
    frames_allocated := 0, is_active := true }

def wStateC3 : SystemState :=
  { free_frames := [], processes := [wProcC], swap_queue := [],
    page_accesses := 0, page_faults := 0, num_swaps := 0, min_active_processes := 1 }

theorem swap_out_semantics_witness :
    0 < wState.processes.length ∧ (getProc wState 0).is_active = true ∧
    (swap_out_process wState 0).num_swaps = wState.num_swaps + 1 ∧
    (swap_out_process wState 0).swap_queue = wState.swap_queue ++ [0] :=
  ⟨by decide, by decide,
    ((swap_out_semantics wState 0 (by decide)).2 (by decide)).2.2.2.2.2.1,
    ((swap_out_semantics wState 0 (by decide)).2 (by decide)).2.2.2.2.1⟩

theorem swap_accounting_witness :
    (getProc wState 1).is_active = false ∧
    (swap_in_process wState 1).num_swaps = wState.num_swaps + 1 :=
  ⟨by decide, (swap_accounting wState 1).2.1 (by decide)⟩

theorem drain_idempotent_witness :
    wState.free_frames.length < ESSENTIAL_PAGES ∧ drainQueue wState = wState :=
  ⟨by decide, (drain_idempotent wState).1 (Or.inr (by decide))⟩

theorem fault_aborts_step_witness :
    wStateC3.free_frames = [] ∧
    handle_page_fault wStateC3 0 10 = (swap_out_process wStateC3 0, false) ∧
    (getProc (simulate_binary_search wStateC3 0) 0).is_active = false ∧
    (getProc (simulate_binary_search wStateC3 0) 0).current_search =
      (getProc wStateC3 0).current_search :=
  ⟨rfl, (fault_aborts_step wStateC3 0).1 rfl 10,
    by rw [simulate_eq_exec wStateC3 0 100 (by decide)]; decide,
    (fault_aborts_step wStateC3 0).2
      (by rw [simulate_eq_exec wStateC3 0 100 (by decide)]; decide)⟩

/-! ## FIFO resumption -/

theorem swap_in_queue (s : SystemState) (pid : Nat) :
    (swap_in_process s pid).swap_queue = s.swap_queue := by
  simp only [swap_in_process]
  split <;> rfl

theorem swap_in_free_length (s : SystemState) (pid : Nat)
    (hin : (getProc s pid).is_active = false) :
    (swap_in_process s pid).free_frames.length =
      s.free_frames.length - ESSENTIAL_PAGES := by
  simp only [swap_in_process]
  rw [if_neg (by rw [hin]; decide)]
  show (allocLoop ESSENTIAL_PAGES 0 _ s.free_frames _).2.1.length = _
  rw [allocLoop_free, List.length_drop]

theorem swap_in_self_active (s : SystemState) (pid : Nat)
    (hpid : pid < s.processes.length) :
    (getProc (swap_in_process s pid) pid).is_active = true := by
  simp only [swap_in_process]
  split
  · rename_i hg
    exact hg
  · rw [getProc_set, if_pos ⟨rfl, hpid⟩]

/-- **C2** FIFO resumption: `swap_out_process` appends the suspended
process at the rear of the queue, so two processes suspended in order
appear in queue order; and when the drain runs with capacity for exactly
one swap-in (at least `ESSENTIAL_PAGES` but fewer than `2 * ESSENTIAL_PAGES`
free frames), the front process `A` is resumed while the later-suspended
`B` stays suspended and queued. -/
theorem fifo_resumption (s : SystemState) (A B : Nat) (rest : List Nat)
    (hq : s.swap_queue = A :: rest) (hB : B ∈ rest) (hAB : A ≠ B)
    (hA : A < s.processes.length) (hB2 : B < s.processes.length)
    (hAin : (getProc s A).is_active = false)
    (hBin : (getProc s B).is_active = false)
    (hf1 : ESSENTIAL_PAGES ≤ s.free_frames.length)
    (hf2 : s.free_frames.length < 2 * ESSENTIAL_PAGES) :
    (∀ (t : SystemState) (pid : Nat), (getProc t pid).is_active = true →
      (swap_out_process t pid).swap_queue = t.swap_queue ++ [pid]) ∧
    (getProc (drainQueue s) A).is_active = true ∧
    (getProc (drainQueue s) B).is_active = false ∧
    (drainQueue s).swap_queue = rest ∧ B ∈ rest := by
  have happend : ∀ (t : SystemState) (pid : Nat), (getProc t pid).is_active = true →
      (swap_out_process t pid).swap_queue = t.swap_queue ++ [pid] := by
    intro t pid hact
    simp only [swap_out_process]
    rw [if_neg (by rw [hact]; decide)]
    split <;> rfl
  have hdq : drainQueue s =
      swap_in_process { s with swap_queue := rest } A := by
    unfold drainQueue
    rw [hq, drainGo_cons, if_pos hf1]
    have hfree' : (swap_in_process { s with swap_queue := rest } A).free_frames.length <
        ESSENTIAL_PAGES := by
      rw [swap_in_free_length { s with swap_queue := rest } A hAin]
      show s.free_frames.length - ESSENTIAL_PAGES < ESSENTIAL_PAGES
      unfold ESSENTIAL_PAGES at hf1 hf2 ⊢
      omega
    cases rest with
    | nil => exact drainGo_nil _
    | cons b rest' => rw [drainGo_cons, if_neg (by omega)]
  refine ⟨happend, ?_, ?_, ?_, hB⟩
  · rw [hdq]
    exact swap_in_self_active _ A hA
  · rw [hdq, getProc_swap_in_other _ A B hAB]
    exact hBin
  · rw [hdq, swap_in_queue]

def wStateC2 : SystemState :=
  { free_frames := [0, 1, 2, 3, 4, 5, 6, 7, 8, 9], processes := [wProcB, wProcB],
    swap_queue := [0, 1], page_accesses := 0, page_faults := 0, num_swaps := 0,
    min_active_processes := 2 }

theorem fifo_resumption_witness :
    ((getProc wStateC2 0).is_active = false ∧
      ESSENTIAL_PAGES ≤ wStateC2.free_frames.length) ∧
    (getProc (drainQueue wStateC2) 0).is_active = true ∧
    (getProc (drainQueue wStateC2) 1).is_active = false :=
  ⟨⟨by decide, by decide⟩,
    (fifo_resumption wStateC2 0 1 [1] rfl (by decide) (by decide) (by decide)
      (by decide) (by decide) (by decide) (by decide) (by decide)).2.1,
    (fifo_resumption wStateC2 0 1 [1] rfl (by decide) (by decide) (by decide)
      (by decide) (by decide) (by decide) (by decide) (by decide)).2.2.1⟩

/-! ## The reference trace -/

theorem swap_out_accesses (s : SystemState) (pid : Nat) :
    (swap_out_process s pid).page_accesses = s.page_accesses := by
  simp only [swap_out_process]
  split
  · rfl
  · split <;> rfl

theorem hpf_accesses (s : SystemState) (pid page_num : Nat) :
    (handle_page_fault s pid page_num).1.page_accesses = s.page_accesses := by
  simp only [handle_page_fault]
  split
  · rfl
  · exact swap_out_accesses s pid

theorem searchLoop_accesses (s : SystemState) (pid : Nat) (key : Int) (L R : Nat) :
    (searchLoop s pid key L R).1.page_accesses =
      s.page_accesses + (searchLoop s pid key L R).2.2.length := by
  induction s, pid, key, L, R using searchLoop.induct with
  | case1 s pid key L R h M page_num s1 hvalid hkey ih =>
    rw [searchLoop]
    simp only [dif_pos h, if_pos hvalid, if_pos hkey, List.length_cons]
    rw [show (L + R) / 2 = M from rfl]
    rw [show ({ s with page_accesses := s.page_accesses + 1 } : SystemState) = s1 from rfl]
    rw [ih]
    have hs1 : s1.page_accesses = s.page_accesses + 1 := rfl
    omega
  | case2 s pid key L R h M page_num s1 hvalid hkey ih =>
    rw [searchLoop]
    simp only [dif_pos h, if_pos hvalid, if_neg hkey, List.length_cons]
    rw [show (L + R) / 2 = M from rfl]
    rw [show ({ s with page_accesses := s.page_accesses + 1 } : SystemState) = s1 from rfl]
    rw [ih]
    have hs1 : s1.page_accesses = s.page_accesses + 1 := rfl
    omega
  | case3 s pid key L R h M page_num s1 hvalid s2 hp hhp hkey ih =>
    rw [searchLoop]
    simp only [dif_pos h, if_neg hvalid, if_pos hhp, if_pos hkey, List.length_cons]
    rw [show (L + R) / 2 = M from rfl]
    rw [show ({ s with page_accesses := s.page_accesses + 1, page_faults := s.page_faults + 1 } : SystemState) = s2 from rfl]
    rw [show handle_page_fault s2 pid page_num = hp from rfl]
    rw [ih]
    have h1 : hp.1.page_accesses = s2.page_accesses := hpf_accesses s2 pid page_num
    have hs2 : s2.page_accesses = s.page_accesses + 1 := rfl
    omega
  | case4 s pid key L R h M page_num s1 hvalid s2 hp hhp hkey ih =>
    rw [searchLoop]
    simp only [dif_pos h, if_neg hvalid, if_pos hhp, if_neg hkey, List.length_cons]
    rw [show (L + R) / 2 = M from rfl]
    rw [show ({ s with page_accesses := s.page_accesses + 1, page_faults := s.page_faults + 1 } : SystemState) = s2 from rfl]
    rw [show handle_page_fault s2 pid page_num = hp from rfl]
    rw [ih]
    have h1 : hp.1.page_accesses = s2.page_accesses := hpf_accesses s2 pid page_num
    have hs2 : s2.page_accesses = s.page_accesses + 1 := rfl
    omega
  | case5 s pid key L R h M page_num s1 hvalid s2 hp hhp =>
    rw [searchLoop]
    simp only [dif_pos h, if_neg hvalid, if_neg hhp, List.length_cons, List.length_nil]
    rw [show (L + R) / 2 = M from rfl]
    rw [show ({ s with page_accesses := s.page_accesses + 1, page_faults := s.page_faults + 1 } : SystemState) = s2 from rfl]
    rw [show handle_page_fault s2 pid page_num = hp from rfl]
    have h1 : hp.1.page_accesses = s2.page_accesses := hpf_accesses s2 pid page_num
    have hs2 : s2.page_accesses = s.page_accesses + 1 := rfl
    omega
  | case6 s pid key L R h =>
    rw [searchLoop]
    simp only [dif_neg h, List.length_nil]
    omega

theorem searchLoop_trace_complete (s : SystemState) (pid : Nat) (key : Int) (L R : Nat)
    (hc : (searchLoop s pid key L R).2.1 = true) :
    (searchLoop s pid key L R).2.2 = specSearchRefs key L R := by
  induction s, pid, key, L, R using searchLoop.induct with
  | case1 s pid key L R h M page_num s1 hvalid hkey ih =>
    rw [searchLoop] at hc ⊢
    simp only [dif_pos h, if_pos hvalid, if_pos hkey] at hc ⊢
    rw [specSearchRefs]
    simp only [dif_pos h, if_pos hkey]
    rw [show (L + R) / 2 = M from rfl]
    rw [show ({ s with page_accesses := s.page_accesses + 1 } : SystemState) = s1 from rfl]
    rw [ih hc]
  | case2 s pid key L R h M page_num s1 hvalid hkey ih =>
    rw [searchLoop] at hc ⊢
    simp only [dif_pos h, if_pos hvalid, if_neg hkey] at hc ⊢
    rw [specSearchRefs]
    simp only [dif_pos h, if_neg hkey]
    rw [show (L + R) / 2 = M from rfl]
    rw [show ({ s with page_accesses := s.page_accesses + 1 } : SystemState) = s1 from rfl]
    rw [ih hc]
  | case3 s pid key L R h M page_num s1 hvalid s2 hp hhp hkey ih =>
    rw [searchLoop] at hc ⊢
    simp only [dif_pos h, if_neg hvalid, if_pos hhp, if_pos hkey] at hc ⊢
    rw [specSearchRefs]
    simp only [dif_pos h, if_pos hkey]
    rw [show (L + R) / 2 = M from rfl]
    rw [show ({ s with page_accesses := s.page_accesses + 1, page_faults := s.page_faults + 1 } : SystemState) = s2 from rfl]
    rw [show handle_page_fault s2 pid page_num = hp from rfl]
    rw [ih hc]
  | case4 s pid key L R h M page_num s1 hvalid s2 hp hhp hkey ih =>
    rw [searchLoop] at hc ⊢
    simp only [dif_pos h, if_neg hvalid, if_pos hhp, if_neg hkey] at hc ⊢
    rw [specSearchRefs]
    simp only [dif_pos h, if_neg hkey]
    rw [show (L + R) / 2 = M from rfl]
    rw [show ({ s with page_accesses := s.page_accesses + 1, page_faults := s.page_faults + 1 } : SystemState) = s2 from rfl]
    rw [show handle_page_fault s2 pid page_num = hp from rfl]
    rw [ih hc]
  | case5 s pid key L R h M page_num s1 hvalid s2 hp hhp =>
    rw [searchLoop] at hc
    simp only [dif_pos h, if_neg hvalid, if_neg hhp] at hc
    exact absurd hc (by decide)
  | case6 s pid key L R h =>
    rw [searchLoop, specSearchRefs]
    simp only [dif_neg h]

/-- **C8** Workload page-reference sequence: the loop of
`simulate_binary_search` records one page access per referenced page (the
final access counter is the initial one plus the trace length), and when
the loop runs to completion its reference trace is exactly the sequence
prescribed by the specification's lower-bound tie-break rule
(`specSearchRefs`): at midpoint `M = (L + R) / 2` reference page
`(M * 4) / PAGE_SIZE + ESSENTIAL_PAGES`, narrowing to `[L, M]` when
`key ≤ M` and to `[M + 1, R]` otherwise.  A workload step runs this loop
at `L = 0`, `R = array_size - 1`, so the array size and key determine the
page sequence and per-step access count exactly. -/
theorem workload_reference_sequence (s : SystemState) (pid : Nat) (key : Int)
    (L R : Nat) :
    ((searchLoop s pid key L R).1.page_accesses =
      s.page_accesses + (searchLoop s pid key L R).2.2.length) ∧
    ((searchLoop s pid key L R).2.1 = true →
      (searchLoop s pid key L R).2.2 = specSearchRefs key L R) :=
  ⟨searchLoop_accesses s pid key L R, searchLoop_trace_complete s pid key L R⟩

/-- A state with ample free frames for a faulting but completing search. -/
def wProcE : Process :=
  { page_table := List.replicate PAGE_TABLE_SIZE 0, array_size := 10000,
    search_indices := [7777], num_searches := 1, current_search := 0,
    frames_allocated := 0, is_active := true }

def wStateC8 : SystemState :=
  { free_frames := List.range 30, processes := [wProcE], swap_queue := [],
    page_accesses := 0, page_faults := 0, num_swaps := 0,
    min_active_processes := 1 }

theorem workload_reference_sequence_witness :
    (searchLoop wStateC8 0 7777 0 9999).2.1 = true ∧
    (searchLoop wStateC8 0 7777 0 9999).2.2 = specSearchRefs 7777 0 9999 :=
  have h : (searchLoop wStateC8 0 7777 0 9999).2.1 = true := by
    rw [searchLoop_eq_searchGo wStateC8 0 7777 0 9999 9999 (by omega)]
    decide
  ⟨h, (workload_reference_sequence wStateC8 0 7777 0 9999).2 h⟩

/-- Trace bounds for the loop: with `R ≤ 2086912` every referenced page
number is in `[ESSENTIAL_PAGES, PAGE_TABLE_SIZE)`. -/
theorem searchLoop_trace_bounds (s : SystemState) (pid : Nat) (key : Int) (L R : Nat)
    (hR : R ≤ 2086912) :
    ∀ pg ∈ (searchLoop s pid key L R).2.2,
      ESSENTIAL_PAGES ≤ pg ∧ pg < PAGE_TABLE_SIZE := by
  induction s, pid, key, L, R using searchLoop.induct with
  | case1 s pid key L R h M page_num s1 hvalid hkey ih =>
    rw [searchLoop]
    simp only [dif_pos h, if_pos hvalid, if_pos hkey]
    intro pg hpg
    rcases List.mem_cons.mp hpg with he | ht
    · subst he
      have hM : M = (L + R) / 2 := rfl
      unfold ESSENTIAL_PAGES PAGE_TABLE_SIZE PAGE_SIZE
      omega
    · exact ih (by have hM : M = (L + R) / 2 := rfl; omega) pg ht
  | case2 s pid key L R h M page_num s1 hvalid hkey ih =>
    rw [searchLoop]
    simp only [dif_pos h, if_pos hvalid, if_neg hkey]
    intro pg hpg
    rcases List.mem_cons.mp hpg with he | ht
    · subst he
      have hM : M = (L + R) / 2 := rfl
      unfold ESSENTIAL_PAGES PAGE_TABLE_SIZE PAGE_SIZE
      omega
    · exact ih hR pg ht
  | case3 s pid key L R h M page_num s1 hvalid s2 hp hhp hkey ih =>
    rw [searchLoop]
    simp only [dif_pos h, if_neg hvalid, if_pos hhp, if_pos hkey]
    intro pg hpg
    rcases List.mem_cons.mp hpg with he | ht
    · subst he
      have hM : M = (L + R) / 2 := rfl
      unfold ESSENTIAL_PAGES PAGE_TABLE_SIZE PAGE_SIZE
      omega
    · exact ih (by have hM : M = (L + R) / 2 := rfl; omega) pg ht
  | case4 s pid key L R h M page_num s1 hvalid s2 hp hhp hkey ih =>
    rw [searchLoop]
    simp only [dif_pos h, if_neg hvalid, if_pos hhp, if_neg hkey]
    intro pg hpg
    rcases List.mem_cons.mp hpg with he | ht
    · subst he
      have hM : M = (L + R) / 2 := rfl
      unfold ESSENTIAL_PAGES PAGE_TABLE_SIZE PAGE_SIZE
      omega
    · exact ih hR pg ht
  | case5 s pid key L R h M page_num s1 hvalid s2 hp hhp =>
    rw [searchLoop]
    simp only [dif_pos h, if_neg hvalid, if_neg hhp]
    intro pg hpg
    rcases List.mem_cons.mp hpg with he | ht
    · subst he
      have hM : M = (L + R) / 2 := rfl
      unfold ESSENTIAL_PAGES PAGE_TABLE_SIZE PAGE_SIZE
      omega
    · cases ht
  | case6 s pid key L R h =>
    rw [searchLoop]
    simp only [dif_neg h]
    intro pg hpg
    cases hpg

/-- **C10** Page-table indexing stays in bounds: the claim's constant is
right (`((2086913 - 2) * 4) / PAGE_SIZE + ESSENTIAL_PAGES < PAGE_TABLE_SIZE`),
and for a process whose `array_size` is at most `2086913` every page
number referenced during a workload step — the indices at which
`simulate_binary_search` reads the page table and `handle_page_fault`
writes it — lies in `[ESSENTIAL_PAGES, PAGE_TABLE_SIZE)`, so no access is
out of bounds and no essential-page entry is ever overwritten. -/
theorem page_index_in_bounds (s : SystemState) (pid : Nat) (key : Int)
    (harr : (getProc s pid).array_size ≤ 2086913) :
    ((2086913 - 2) * 4) / PAGE_SIZE + ESSENTIAL_PAGES < PAGE_TABLE_SIZE ∧
    ∀ pg ∈ (searchLoop s pid key 0 ((getProc s pid).array_size - 1).toNat).2.2,
      ESSENTIAL_PAGES ≤ pg ∧ pg < PAGE_TABLE_SIZE := by
  constructor
  · decide
  · exact searchLoop_trace_bounds s pid key 0 _ (by omega)

theorem page_index_in_bounds_witness :
    (getProc wStateC8 0).array_size ≤ 2086913 ∧
    ∀ pg ∈ (searchLoop wStateC8 0 7777 0
        ((getProc wStateC8 0).array_size - 1).toNat).2.2,
      ESSENTIAL_PAGES ≤ pg ∧ pg < PAGE_TABLE_SIZE :=
  ⟨by decide, (page_index_in_bounds wStateC8 0 7777 (by decide)).2⟩

/-! ## The global invariant -/

/-- The system invariant maintained by every operation of the simulator
(for runs on valid input): page tables have the fixed size,
`frames_allocated` counts the valid entries, inactive processes hold no
frames, the valid entries of all processes together with the free pool
partition the user frame space, array sizes respect the address-space
bound, an active unfinished process holds its essential pages, a finished
process is active and holds no frames, the swap queue holds exactly the
inactive processes (each once, each unfinished, each a real process id). -/
structure Inv (s : SystemState) : Prop where
  pt_len : ∀ p ∈ s.processes, p.page_table.length = PAGE_TABLE_SIZE
  fa_eq : ∀ p ∈ s.processes, p.frames_allocated = countValid p.page_table
  inactive_zero : ∀ p ∈ s.processes, p.is_active = false → countValid p.page_table = 0
  conserve : framesMS s + ↑s.free_frames = Multiset.range USER_FRAMES
  arr_bound : ∀ p ∈ s.processes, p.array_size ≤ 2086913
  essential : ∀ p ∈ s.processes, p.is_active = true →
    p.current_search < p.num_searches →
    ∀ j < ESSENTIAL_PAGES, entryValid (p.page_table.getD j 0) = true
  completed : ∀ p ∈ s.processes, p.num_searches ≤ p.current_search →
    p.is_active = true ∧ countValid p.page_table = 0
  queue_mem : ∀ q ∈ s.swap_queue, q < s.processes.length ∧
    (getProc s q).is_active = false ∧
    (getProc s q).current_search < (getProc s q).num_searches
  queue_nodup : s.swap_queue.Nodup
  inactive_queued : ∀ i < s.processes.length,
    (getProc s i).is_active = false → i ∈ s.swap_queue

theorem getProc_mem (s : SystemState) (i : Nat) (h : i < s.processes.length) :
    getProc s i ∈ s.processes := by
  unfold getProc
  rw [List.getD_eq_getElem?_getD, List.getElem?_eq_getElem h]
  exact List.getElem_mem h

/-- Invariance is insensitive to the counters. -/
theorem inv_of_same (s t : SystemState) (hp : t.processes = s.processes)
    (hf : t.free_frames = s.free_frames) (hq : t.swap_queue = s.swap_queue)
    (hI : Inv s) : Inv t := by
  have hget : ∀ i, getProc t i = getProc s i := by
    intro i
    unfold getProc
    rw [hp]
  refine ⟨?_, ?_, ?_, ?_, ?_, ?_, ?_, ?_, ?_, ?_⟩
  · rw [hp]; exact hI.pt_len
  · rw [hp]; exact hI.fa_eq
  · rw [hp]; exact hI.inactive_zero
  · show framesMS t + _ = _
    unfold framesMS
    rw [hp, hf]
    exact hI.conserve
  · rw [hp]; exact hI.arr_bound
  · rw [hp]; exact hI.essential
  · rw [hp]; exact hI.completed
  · intro q hqm
    rw [hq] at hqm
    rw [hget q, hp]
    exact hI.queue_mem q hqm
  · rw [hq]; exact hI.queue_nodup
  · intro i hi hin
    rw [hp] at hi
    rw [hget i] at hin
    rw [hq]
    exact hI.inactive_queued i hi hin

theorem inv_mk_min (fr : List Nat) (l : List Process) (sq : List Nat)
    (pa pf ns ma ma' : Nat)
    (hI : Inv ⟨fr, l, sq, pa, pf, ns, ma⟩) : Inv ⟨fr, l, sq, pa, pf, ns, ma'⟩ :=
  inv_of_same ⟨fr, l, sq, pa, pf, ns, ma⟩ ⟨fr, l, sq, pa, pf, ns, ma'⟩ rfl rfl rfl hI

theorem ptFrames_zero_of_countValid {pt : List Nat} (h : countValid pt = 0) :
    ptFrames pt = 0 := by
  rw [← Multiset.card_eq_zero, card_ptFrames]
  exact h

theorem free_mem_small {s : SystemState} (hI : Inv s) :
    ∀ f ∈ s.free_frames, f < 32768 := by
  intro f hf
  have hm : f ∈ framesMS s + ↑s.free_frames := by
    rw [Multiset.mem_add]
    right
    exact hf
  rw [hI.conserve, Multiset.mem_range] at hm
  unfold USER_FRAMES at hm
  omega

theorem card_sum_ptFrames (l : List Process)
    (h : ∀ p ∈ l, p.frames_allocated = countValid p.page_table) :
    Multiset.card ((l.map (fun p => ptFrames p.page_table)).sum) =
      (l.map (fun p => p.frames_allocated)).sum := by
  induction l with
  | nil => rfl
  | cons a t ih =>
    simp only [List.map_cons, List.sum_cons, Multiset.card_add]
    rw [card_ptFrames, ih (fun p hp => h p (List.mem_cons_of_mem a hp)),
      h a (List.mem_cons_self a t)]

/-- The exchange law for `framesMS` under a process update. -/
theorem framesMS_set (s : SystemState) (pid : Nat) (p' : Process)
    (h : pid < s.processes.length) :
    ((s.processes.set pid p').map (fun p => ptFrames p.page_table)).sum
        + ptFrames (getProc s pid).page_table =
      framesMS s + ptFrames p'.page_table :=
  sum_map_set (fun p => ptFrames p.page_table) defaultProcess s.processes pid p' h

theorem countValid_pos_of_valid_slot {pt : List Nat} (j : Nat) (hj : j < pt.length)
    (hv : entryValid (pt.getD j 0) = true) : 0 < countValid pt := by
  have hmem : pt.getD j 0 ∈ pt := by
    rw [List.getD_eq_getElem?_getD, List.getElem?_eq_getElem hj]
    exact List.getElem_mem hj
  have : pt.getD j 0 ∈ pt.filter (fun e => entryValid e) :=
    List.mem_filter.mpr ⟨hmem, hv⟩
  have := List.length_pos.mpr (List.ne_nil_of_mem this)
  unfold countValid
  omega

theorem inv_swap_out (s : SystemState) (pid : Nat) (hI : Inv s)
    (hu : (getProc s pid).is_active = true →
      (getProc s pid).current_search < (getProc s pid).num_searches) :
    Inv (swap_out_process s pid) := by
  simp only [swap_out_process]
  split
  · exact hI
  · rename_i hg
    have hact : (getProc s pid).is_active = true := by
      cases hb : (getProc s pid).is_active
      · rw [hb] at hg
        exact absurd rfl hg
      · rfl
    have hpid : pid < s.processes.length := by
      by_contra hc
      rw [getProc_default s pid (by omega)] at hact
      exact absurd hact (by decide)
    have hmem := getProc_mem s pid hpid
    have hunf := hu hact
    have hnotq : pid ∉ s.swap_queue := by
      intro hin
      have h2 := (hI.queue_mem pid hin).2.1
      rw [hact] at h2
      cases h2
    set u := unmapAll (getProc s pid).page_table s.free_frames with hudef
    set p' : Process :=
      { page_table := u.1, array_size := (getProc s pid).array_size,
        search_indices := (getProc s pid).search_indices,
        num_searches := (getProc s pid).num_searches,
        current_search := (getProc s pid).current_search,
        frames_allocated := 0, is_active := false } with hp'def
    have hp'pt : p'.page_table = u.1 := rfl
    have hp'cur : p'.current_search = (getProc s pid).current_search := rfl
    have hp'num : p'.num_searches = (getProc s pid).num_searches := rfl
    have hp'act : p'.is_active = false := rfl
    have hp'arr : p'.array_size = (getProc s pid).array_size := rfl
    have hp'fa : p'.frames_allocated = 0 := rfl
    have hcv : countValid p'.page_table = 0 := countValid_unmapAll_fst _ _
    have hmain : Inv
        { s with
            free_frames := u.2,
            processes := s.processes.set pid p',
            swap_queue := s.swap_queue ++ [pid],
            num_swaps := s.num_swaps + 1 } := by
      refine ⟨?_, ?_, ?_, ?_, ?_, ?_, ?_, ?_, ?_, ?_⟩
      · intro p hp
        rcases List.mem_or_eq_of_mem_set hp with hold | heq
        · exact hI.pt_len p hold
        · rw [heq, hp'pt, length_unmapAll_fst]
          exact hI.pt_len _ hmem
      · intro p hp
        rcases List.mem_or_eq_of_mem_set hp with hold | heq
        · exact hI.fa_eq p hold
        · rw [heq, hp'fa, hcv]
      · intro p hp _
        rcases List.mem_or_eq_of_mem_set hp with hold | heq
        · rename_i hin
          exact hI.inactive_zero p hold hin
        · rw [heq]
          exact hcv
      · show ((s.processes.set pid p').map (fun p => ptFrames p.page_table)).sum
            + ↑u.2 = Multiset.range USER_FRAMES
        have h1 := framesMS_set s pid p' hpid
        rw [hp'pt, hudef, unmapAll_fst] at h1
        rw [show ptFrames ((getProc s pid).page_table.map
            (fun e => if entryValid e then 0 else e)) = 0 from
          ptFrames_zero_of_countValid (by
            rw [← unmapAll_fst (getProc s pid).page_table s.free_frames]
            exact countValid_unmapAll_fst _ _), add_zero] at h1
        rw [hudef, unmapAll_snd, ← add_assoc, h1]
        exact hI.conserve
      · intro p hp
        rcases List.mem_or_eq_of_mem_set hp with hold | heq
        · exact hI.arr_bound p hold
        · rw [heq, hp'arr]
          exact hI.arr_bound _ hmem
      · intro p hp hpact
        rcases List.mem_or_eq_of_mem_set hp with hold | heq
        · exact hI.essential p hold hpact
        · rw [heq, hp'act] at hpact
          cases hpact
      · intro p hp hge
        rcases List.mem_or_eq_of_mem_set hp with hold | heq
        · exact hI.completed p hold hge
        · rw [heq, hp'num, hp'cur] at hge
          omega
      · intro q hq
        have hlen2 : (s.processes.set pid p').length = s.processes.length :=
          List.length_set _ _ _
        rcases List.mem_append.mp hq with hqo | hqp
        · obtain ⟨hq1, hq2, hq3⟩ := hI.queue_mem q hqo
          have hqne : pid ≠ q := by
            intro he
            rw [← he] at hqo
            exact hnotq hqo
          refine ⟨by show q < (s.processes.set pid p').length
                     rw [List.length_set]
                     exact hq1, ?_, ?_⟩
          · rw [getProc_mk, getD_set_cases, if_neg (by tauto)]
            exact hq2
          · rw [getProc_mk, getD_set_cases, if_neg (by tauto)]
            exact hq3
        · have hqp : q = pid := List.mem_singleton.mp hqp
          subst hqp
          refine ⟨by show q < (s.processes.set q p').length
                     rw [List.length_set]
                     exact hpid, ?_, ?_⟩
          · rw [getProc_mk, getD_set_cases, if_pos ⟨rfl, hpid⟩]
          · rw [getProc_mk, getD_set_cases, if_pos ⟨rfl, hpid⟩, hp'cur, hp'num]
            exact hunf
      · rw [List.nodup_append]
        exact ⟨hI.queue_nodup, List.nodup_singleton pid,
          fun a ha hb => hnotq (by rwa [List.mem_singleton.mp hb] at ha)⟩
      · intro i hi hin
        rw [List.length_set] at hi
        by_cases hip : pid = i
        · subst hip
          exact List.mem_append.mpr (Or.inr (List.mem_singleton.mpr rfl))
        · rw [getProc_mk, getD_set_cases, if_neg (by tauto)] at hin
          exact List.mem_append.mpr (Or.inl (hI.inactive_queued i hi hin))
    split
    · exact inv_mk_min _ _ _ _ _ _ _ _ hmain
    · exact hmain

theorem inv_hpf (s : SystemState) (pid page_num : Nat) (hI : Inv s)
    (hpid : pid < s.processes.length)
    (hact : (getProc s pid).is_active = true)
    (hunf : (getProc s pid).current_search < (getProc s pid).num_searches)
    (hpg1 : ESSENTIAL_PAGES ≤ page_num) (hpg2 : page_num < PAGE_TABLE_SIZE)
    (hinv : entryValid ((getProc s pid).page_table.getD page_num 0) = false) :
    Inv (handle_page_fault s pid page_num).1 := by
  simp only [handle_page_fault]
  split
  · rename_i f rest hfree
    have hmem := getProc_mem s pid hpid
    have hfsmall : f < 32768 :=
      free_mem_small hI f (by rw [hfree]; exact List.mem_cons_self f rest)
    have hlenpt : (getProc s pid).page_table.length = PAGE_TABLE_SIZE :=
      hI.pt_len _ hmem
    obtain ⟨hset1, hset2⟩ := ptFrames_set_invalid (getProc s pid).page_table
      page_num (mkEntry f) (by omega) hinv (entryValid_mkEntry f)
    set p' : Process :=
      { page_table := (getProc s pid).page_table.set page_num (mkEntry f),
        array_size := (getProc s pid).array_size,
        search_indices := (getProc s pid).search_indices,
        num_searches := (getProc s pid).num_searches,
        current_search := (getProc s pid).current_search,
        frames_allocated := (getProc s pid).frames_allocated + 1,
        is_active := (getProc s pid).is_active } with hp'def
    refine ⟨?_, ?_, ?_, ?_, ?_, ?_, ?_, ?_, ?_, ?_⟩
    · intro p hp
      rcases List.mem_or_eq_of_mem_set hp with hold | heq
      · exact hI.pt_len p hold
      · rw [heq, show p'.page_table =
          (getProc s pid).page_table.set page_num (mkEntry f) from rfl,
          List.length_set]
        exact hlenpt
    · intro p hp
      rcases List.mem_or_eq_of_mem_set hp with hold | heq
      · exact hI.fa_eq p hold
      · rw [heq, show p'.frames_allocated =
          (getProc s pid).frames_allocated + 1 from rfl,
          show p'.page_table =
            (getProc s pid).page_table.set page_num (mkEntry f) from rfl,
          hset2, hI.fa_eq _ hmem]
    · intro p hp hpfalse
      rcases List.mem_or_eq_of_mem_set hp with hold | heq
      · exact hI.inactive_zero p hold hpfalse
      · rw [heq, show p'.is_active = (getProc s pid).is_active from rfl, hact] at hpfalse
        cases hpfalse
    · show ((s.processes.set pid p').map (fun p => ptFrames p.page_table)).sum
          + ↑rest = Multiset.range USER_FRAMES
      have h1 := framesMS_set s pid p' hpid
      rw [show p'.page_table =
        (getProc s pid).page_table.set page_num (mkEntry f) from rfl, hset1,
        entryFrame_mkEntry f hfsmall] at h1
      have h2 := hI.conserve
      rw [hfree, ← Multiset.cons_coe] at h2
      refine add_right_cancel
        (show _ + ptFrames (getProc s pid).page_table =
          Multiset.range USER_FRAMES + ptFrames (getProc s pid).page_table from ?_)
      rw [add_right_comm, h1, ← h2, ← Multiset.singleton_add, ← Multiset.singleton_add]
      abel
    · intro p hp
      rcases List.mem_or_eq_of_mem_set hp with hold | heq
      · exact hI.arr_bound p hold
      · rw [heq, show p'.array_size = (getProc s pid).array_size from rfl]
        exact hI.arr_bound _ hmem
    · intro p hp hpact hpunf j hj
      rcases List.mem_or_eq_of_mem_set hp with hold | heq
      · exact hI.essential p hold hpact hpunf j hj
      · rw [heq, show p'.page_table =
          (getProc s pid).page_table.set page_num (mkEntry f) from rfl,
          getD_set_ne _ _ _ (by unfold ESSENTIAL_PAGES at hpg1 hj; omega)]
        exact hI.essential _ hmem hact hunf j hj
    · intro p hp hge
      rcases List.mem_or_eq_of_mem_set hp with hold | heq
      · exact hI.completed p hold hge
      · rw [heq, show p'.num_searches = (getProc s pid).num_searches from rfl,
          show p'.current_search = (getProc s pid).current_search from rfl] at hge
        omega
    · intro q hq
      obtain ⟨hq1, hq2, hq3⟩ := hI.queue_mem q hq
      have hqne : pid ≠ q := by
        intro he
        rw [← he] at hq2
        rw [hact] at hq2
        cases hq2
      refine ⟨by show q < (s.processes.set pid p').length
                 rw [List.length_set]
                 exact hq1, ?_, ?_⟩
      · rw [getProc_mk, getD_set_cases, if_neg (by tauto)]
        exact hq2
      · rw [getProc_mk, getD_set_cases, if_neg (by tauto)]
        exact hq3
    · exact hI.queue_nodup
    · intro i hi hin
      rw [List.length_set] at hi
      by_cases hip : pid = i
      · subst hip
        rw [getProc_mk, getD_set_cases, if_pos ⟨rfl, hpid⟩,
          show p'.is_active = (getProc s pid).is_active from rfl, hact] at hin
        cases hin
      · rw [getProc_mk, getD_set_cases, if_neg (by tauto)] at hin
        exact hI.inactive_queued i hi hin
  · exact inv_swap_out s pid hI (fun _ => hunf)

theorem getD_mem_of_lt {α : Type} (l : List α) (j : Nat) (d : α) (h : j < l.length) :
    l.getD j d ∈ l := by
  rw [List.getD_eq_getElem?_getD, List.getElem?_eq_getElem h]
  exact List.getElem_mem h

theorem inv_swap_in_dequeued (s : SystemState) (q : Nat) (rest : List Nat)
    (hI : Inv s) (hq : s.swap_queue = q :: rest)
    (hfree : ESSENTIAL_PAGES ≤ s.free_frames.length) :
    Inv (swap_in_process { s with swap_queue := rest } q) := by
  obtain ⟨hq1, hq2, hq3⟩ := hI.queue_mem q (by rw [hq]; exact List.mem_cons_self q rest)
  have hmem := getProc_mem s q hq1
  have hcv0 : countValid (getProc s q).page_table = 0 := hI.inactive_zero _ hmem hq2
  have hfa0 : (getProc s q).frames_allocated = 0 := by
    rw [hI.fa_eq _ hmem, hcv0]
  have hlenpt : (getProc s q).page_table.length = PAGE_TABLE_SIZE := hI.pt_len _ hmem
  have hallinv : ∀ j, 0 ≤ j → j < 0 + ESSENTIAL_PAGES →
      entryValid ((getProc s q).page_table.getD j 0) = false := by
    intro j _ hj
    exact entryValid_of_countValid_zero hcv0 _
      (getD_mem_of_lt _ j 0 (by
        rw [hlenpt]; unfold ESSENTIAL_PAGES at hj; unfold PAGE_TABLE_SIZE; omega))
  have hsmall : ∀ f ∈ s.free_frames.take ESSENTIAL_PAGES, f < 32768 := by
    intro f hf
    exact free_mem_small hI f (List.take_subset _ _ hf)
  have hlen10 : 0 + ESSENTIAL_PAGES ≤ (getProc s q).page_table.length := by
    rw [hlenpt]; decide
  have hmin : min ESSENTIAL_PAGES s.free_frames.length = ESSENTIAL_PAGES :=
    min_eq_left hfree
  obtain ⟨hal1, hal2⟩ := allocLoop_ptFrames ESSENTIAL_PAGES 0
    (getProc s q).page_table s.free_frames (getProc s q).frames_allocated
    hallinv hlen10 hsmall
  have hnodup := hI.queue_nodup
  rw [hq] at hnodup
  have hqnotin : q ∉ rest := (List.nodup_cons.mp hnodup).1
  simp only [swap_in_process]
  rw [if_neg (by
    show ¬((getProc { s with swap_queue := rest } q).is_active = true)
    rw [show getProc { s with swap_queue := rest } q = getProc s q from rfl, hq2]
    decide)]
  rw [show (getProc { s with swap_queue := rest } q : Process) = getProc s q from rfl]
  set a := allocLoop ESSENTIAL_PAGES 0 (getProc s q).page_table s.free_frames
    (getProc s q).frames_allocated with hadef
  set p' : Process :=
    { page_table := a.1, array_size := (getProc s q).array_size,
      search_indices := (getProc s q).search_indices,
      num_searches := (getProc s q).num_searches,
      current_search := (getProc s q).current_search,
      frames_allocated := a.2.2, is_active := true } with hp'def
  refine ⟨?_, ?_, ?_, ?_, ?_, ?_, ?_, ?_, ?_, ?_⟩
  · intro p hp
    rcases List.mem_or_eq_of_mem_set hp with hold | heq
    · exact hI.pt_len p hold
    · rw [heq, show p'.page_table = a.1 from rfl, hadef, allocLoop_length]
      exact hlenpt
  · intro p hp
    rcases List.mem_or_eq_of_mem_set hp with hold | heq
    · exact hI.fa_eq p hold
    · rw [heq, show p'.frames_allocated = a.2.2 from rfl,
        show p'.page_table = a.1 from rfl, hadef, allocLoop_fa, hal2, hfa0, hcv0]
  · intro p hp hpfalse
    rcases List.mem_or_eq_of_mem_set hp with hold | heq
    · exact hI.inactive_zero p hold hpfalse
    · rw [heq, show p'.is_active = true from rfl] at hpfalse
      cases hpfalse
  · show ((s.processes.set q p').map (fun p => ptFrames p.page_table)).sum
        + ↑a.2.1 = Multiset.range USER_FRAMES
    have h1 := framesMS_set s q p' hq1
    rw [show p'.page_table = a.1 from rfl, hal1] at h1
    have h2 := hI.conserve
    have htd : (↑(s.free_frames.take ESSENTIAL_PAGES) : Multiset Nat)
        + ↑(s.free_frames.drop ESSENTIAL_PAGES) = ↑s.free_frames := by
      rw [Multiset.coe_add, List.take_append_drop]
    rw [hadef, allocLoop_free]
    refine add_right_cancel
      (show _ + ptFrames (getProc s q).page_table =
        Multiset.range USER_FRAMES + ptFrames (getProc s q).page_table from ?_)
    rw [add_right_comm, h1, ← h2, ← htd]
    abel
  · intro p hp
    rcases List.mem_or_eq_of_mem_set hp with hold | heq
    · exact hI.arr_bound p hold
    · rw [heq, show p'.array_size = (getProc s q).array_size from rfl]
      exact hI.arr_bound _ hmem
  · intro p hp hpact hpunf j hj
    rcases List.mem_or_eq_of_mem_set hp with hold | heq
    · exact hI.essential p hold hpact hpunf j hj
    · rw [heq, show p'.page_table = a.1 from rfl, hadef]
      exact allocLoop_valid_slots ESSENTIAL_PAGES 0 _ _ _ hfree hlen10 j (by omega) (by omega)
  · intro p hp hge
    rcases List.mem_or_eq_of_mem_set hp with hold | heq
    · exact hI.completed p hold hge
    · rw [heq, show p'.num_searches = (getProc s q).num_searches from rfl,
        show p'.current_search = (getProc s q).current_search from rfl] at hge
      omega
  · intro i hi
    have hiq : i ∈ rest := hi
    have hine : q ≠ i := by
      intro he
      rw [← he] at hiq
      exact hqnotin hiq
    obtain ⟨hi1, hi2, hi3⟩ := hI.queue_mem i (by rw [hq]; exact List.mem_cons_of_mem q hiq)
    refine ⟨by show i < (s.processes.set q p').length
               rw [List.length_set]
               exact hi1, ?_, ?_⟩
    · rw [getProc_mk, getD_set_cases, if_neg (by tauto)]
      exact hi2
    · rw [getProc_mk, getD_set_cases, if_neg (by tauto)]
      exact hi3
  · exact (List.nodup_cons.mp hnodup).2
  · intro i hi hin
    rw [List.length_set] at hi
    by_cases hiq : q = i
    · subst hiq
      rw [getProc_mk, getD_set_cases, if_pos ⟨rfl, hq1⟩,
        show p'.is_active = true from rfl] at hin
      cases hin
    · rw [getProc_mk, getD_set_cases, if_neg (by tauto)] at hin
      have := hI.inactive_queued i hi hin
      rw [hq] at this
      rcases List.mem_cons.mp this with he | hm
      · exact absurd he.symm hiq
      · exact hm

theorem inv_drainGo : ∀ (rest : List Nat) (s : SystemState), Inv s →
    s.swap_queue = rest → Inv (drainGo s rest) := by
  intro rest
  induction rest with
  | nil =>
    intro s hI _
    rw [drainGo_nil]
    exact hI
  | cons q rest' ih =>
    intro s hI hq
    rw [drainGo_cons]
    split
    · rename_i hfree
      exact ih _ (inv_swap_in_dequeued s q rest' hI hq hfree)
        (by rw [swap_in_queue])
    · exact hI

theorem inv_drainQueue (s : SystemState) (hI : Inv s) : Inv (drainQueue s) :=
  inv_drainGo s.swap_queue s hI rfl

theorem inv_searchLoop (s : SystemState) (pid : Nat) (key : Int) (L R : Nat)
    (hI : Inv s) (hpid : pid < s.processes.length)
    (hact : (getProc s pid).is_active = true)
    (hunf : (getProc s pid).current_search < (getProc s pid).num_searches)
    (hR : R ≤ ((getProc s pid).array_size - 1).toNat) :
    Inv (searchLoop s pid key L R).1 := by
  induction s, pid, key, L, R using searchLoop.induct with
  | case1 s pid key L R h M page_num s1 hvalid hkey ih =>
    rw [searchLoop]
    simp only [dif_pos h, if_pos hvalid, if_pos hkey]
    apply ih
    · exact inv_of_same s _ rfl rfl rfl hI
    · exact hpid
    · exact hact
    · exact hunf
    · have hM : M = (L + R) / 2 := rfl
      rw [show (getProc s1 pid).array_size = (getProc s pid).array_size from rfl]
      omega
  | case2 s pid key L R h M page_num s1 hvalid hkey ih =>
    rw [searchLoop]
    simp only [dif_pos h, if_pos hvalid, if_neg hkey]
    apply ih
    · exact inv_of_same s _ rfl rfl rfl hI
    · exact hpid
    · exact hact
    · exact hunf
    · rw [show (getProc s1 pid).array_size = (getProc s pid).array_size from rfl]
      exact hR
  | case3 s pid key L R h M page_num s1 hvalid s2 hp hhp hkey ih =>
    rw [searchLoop]
    simp only [dif_pos h, if_neg hvalid, if_pos hhp, if_pos hkey]
    have hM : M = (L + R) / 2 := rfl
    have hpg : page_num = M * 4 / 4096 + 10 := rfl
    have harr : (getProc s pid).array_size ≤ 2086913 :=
      hI.arr_bound _ (getProc_mem s pid hpid)
    have hI2 : Inv s2 := inv_of_same s s2 rfl rfl rfl hI
    have hIhp : Inv hp.1 := by
      apply inv_hpf s2 pid page_num hI2 hpid hact hunf
      · show 10 ≤ page_num
        omega
      · show page_num < 2048
        omega
      · rw [Bool.not_eq_true] at hvalid
        exact hvalid
    have hst := staticsEq_hpf s2 pid page_num
    apply ih
    · exact hIhp
    · rw [hst.1]
      exact hpid
    · rw [is_active_hpf_success s2 pid page_num hhp]
      exact hact
    · rw [(hst.2 pid).1, (hst.2 pid).2.1]
      exact hunf
    · rw [(hst.2 pid).2.2.1]
      show M ≤ ((getProc s pid).array_size - 1).toNat
      omega
  | case4 s pid key L R h M page_num s1 hvalid s2 hp hhp hkey ih =>
    rw [searchLoop]
    simp only [dif_pos h, if_neg hvalid, if_pos hhp, if_neg hkey]
    have hM : M = (L + R) / 2 := rfl
    have hpg : page_num = M * 4 / 4096 + 10 := rfl
    have harr : (getProc s pid).array_size ≤ 2086913 :=
      hI.arr_bound _ (getProc_mem s pid hpid)
    have hI2 : Inv s2 := inv_of_same s s2 rfl rfl rfl hI
    have hIhp : Inv hp.1 := by
      apply inv_hpf s2 pid page_num hI2 hpid hact hunf
      · show 10 ≤ page_num
        omega
      · show page_num < 2048
        omega
      · rw [Bool.not_eq_true] at hvalid
        exact hvalid
    have hst := staticsEq_hpf s2 pid page_num
    apply ih
    · exact hIhp
    · rw [hst.1]
      exact hpid
    · rw [is_active_hpf_success s2 pid page_num hhp]
      exact hact
    · rw [(hst.2 pid).1, (hst.2 pid).2.1]
      exact hunf
    · rw [(hst.2 pid).2.2.1]
      exact hR
  | case5 s pid key L R h M page_num s1 hvalid s2 hp hhp =>
    rw [searchLoop]
    simp only [dif_pos h, if_neg hvalid, if_neg hhp]
    have hM : M = (L + R) / 2 := rfl
    have hpg : page_num = M * 4 / 4096 + 10 := rfl
    have harr : (getProc s pid).array_size ≤ 2086913 :=
      hI.arr_bound _ (getProc_mem s pid hpid)
    have hI2 : Inv s2 := inv_of_same s s2 rfl rfl rfl hI
    apply inv_hpf s2 pid page_num hI2 hpid hact hunf
    · show 10 ≤ page_num
      omega
    · show page_num < 2048
      omega
    · rw [Bool.not_eq_true] at hvalid
      exact hvalid
  | case6 s pid key L R h =>
    rw [searchLoop]
    simp only [dif_neg h]
    exact hI

theorem inv_simulate (s : SystemState) (pid : Nat) (hI : Inv s) :
    Inv (simulate_binary_search s pid) := by
  simp only [simulate_binary_search]
  set p := getProc s pid with hp
  by_cases hguard :
      ((!p.is_active) || decide (p.num_searches ≤ p.current_search)) = true
  · rw [if_pos hguard]
    exact hI
  · rw [if_neg hguard]
    have hactive : p.is_active = true := by
      cases hb : p.is_active
      · rw [hb] at hguard
        simp at hguard
      · rfl
    have hunf : p.current_search < p.num_searches := by
      by_contra hc
      push_neg at hc
      apply hguard
      rw [Bool.or_eq_true]
      right
      exact decide_eq_true hc
    have hpid : pid < s.processes.length := by
      by_contra hcon
      rw [hp, getProc_default s pid (by omega)] at hactive
      exact absurd hactive (by decide)
    set key := p.search_indices.getD p.current_search 0 with hkeydef
    set Rn := (p.array_size - 1).toNat with hRdef
    set r := searchLoop s pid key 0 Rn with hrdef
    have hIr : Inv r.1 := by
      rw [hrdef]
      exact inv_searchLoop s pid key 0 Rn hI hpid (by rw [← hp]; exact hactive)
        (by rw [← hp]; exact hunf) (by rw [← hp, ← hRdef])
    by_cases hab : (!r.2.1) = true
    · rw [if_pos hab]
      exact hIr
    · rw [if_neg hab]
      have hcomp : r.2.1 = true := by
        cases hb : r.2.1
        · rw [hb] at hab
          exact absurd rfl hab
        · rfl
      have hst : StaticsEq s r.1 := by
        rw [hrdef]
        exact staticsEq_searchLoop s pid key 0 Rn
      have hcact : (getProc r.1 pid).is_active = true := by
        rw [hrdef, searchLoop_complete_active s pid key 0 Rn (hrdef ▸ hcomp), ← hp]
        exact hactive
      have hlen : pid < r.1.processes.length := by
        rw [hst.1]
        exact hpid
      have hmemr : getProc r.1 pid ∈ r.1.processes := getProc_mem _ _ hlen
      have hcur : (getProc r.1 pid).current_search = p.current_search := (hst.2 pid).1
      have hnum : (getProc r.1 pid).num_searches = p.num_searches := (hst.2 pid).2.1
      have hunfr : (getProc r.1 pid).current_search < (getProc r.1 pid).num_searches := by
        rw [hcur, hnum]
        exact hunf
      have hnotq : pid ∉ r.1.swap_queue := by
        intro hin
        have h2 := (hIr.queue_mem pid hin).2.1
        rw [hcact] at h2
        cases h2
      by_cases hfin :
          (getProc r.1 pid).num_searches ≤ (getProc r.1 pid).current_search + 1
      · rw [if_pos hfin]
        apply inv_drainQueue
        rw [List.set_set]
        set u := unmapAll (getProc r.1 pid).page_table r.1.free_frames with hudef
        set pF : Process :=
          { page_table := u.1, array_size := (getProc r.1 pid).array_size,
            search_indices := (getProc r.1 pid).search_indices,
            num_searches := (getProc r.1 pid).num_searches,
            current_search := (getProc r.1 pid).current_search + 1,
            frames_allocated := 0,
            is_active := (getProc r.1 pid).is_active } with hpFdef

        have hcvF : countValid pF.page_table = 0 := countValid_unmapAll_fst _ _
        refine ⟨?_, ?_, ?_, ?_, ?_, ?_, ?_, ?_, ?_, ?_⟩
        · intro q hq
          rcases List.mem_or_eq_of_mem_set hq with hold | heq
          · exact hIr.pt_len q hold
          · rw [heq, show pF.page_table = u.1 from rfl, hudef, length_unmapAll_fst]
            exact hIr.pt_len _ hmemr
        · intro q hq
          rcases List.mem_or_eq_of_mem_set hq with hold | heq
          · exact hIr.fa_eq q hold
          · rw [heq, show pF.frames_allocated = 0 from rfl, hcvF]
        · intro q hq hqf
          rcases List.mem_or_eq_of_mem_set hq with hold | heq
          · exact hIr.inactive_zero q hold hqf
          · rw [heq]
            exact hcvF
        · show ((r.1.processes.set pid pF).map (fun p => ptFrames p.page_table)).sum
              + ↑u.2 = Multiset.range USER_FRAMES
          have h1 := framesMS_set r.1 pid pF hlen
          rw [show pF.page_table = u.1 from rfl, hudef, unmapAll_fst] at h1
          rw [show ptFrames ((getProc r.1 pid).page_table.map
              (fun e => if entryValid e then 0 else e)) = 0 from
            ptFrames_zero_of_countValid (by
              rw [← unmapAll_fst (getProc r.1 pid).page_table r.1.free_frames]
              exact countValid_unmapAll_fst _ _), add_zero] at h1
          rw [hudef, unmapAll_snd, ← add_assoc, h1]
          exact hIr.conserve
        · intro q hq
          rcases List.mem_or_eq_of_mem_set hq with hold | heq
          · exact hIr.arr_bound q hold
          · rw [heq, show pF.array_size = (getProc r.1 pid).array_size from rfl]
            exact hIr.arr_bound _ hmemr
        · intro q hq hqact hqunf j hj
          rcases List.mem_or_eq_of_mem_set hq with hold | heq
          · exact hIr.essential q hold hqact hqunf j hj
          · exfalso
            rw [heq, show pF.current_search = (getProc r.1 pid).current_search + 1 from rfl,
              show pF.num_searches = (getProc r.1 pid).num_searches from rfl] at hqunf
            omega
        · intro q hq hge
          rcases List.mem_or_eq_of_mem_set hq with hold | heq
          · exact hIr.completed q hold hge
          · rw [heq]
            refine ⟨?_, hcvF⟩
            rw [show pF.is_active = (getProc r.1 pid).is_active from rfl]
            exact hcact
        · intro q hq
          obtain ⟨hq1, hq2, hq3⟩ := hIr.queue_mem q hq
          have hqne : pid ≠ q := by
            intro he
            rw [← he] at hq
            exact hnotq hq
          refine ⟨by show q < (r.1.processes.set pid pF).length
                     rw [List.length_set]
                     exact hq1, ?_, ?_⟩
          · rw [getProc_mk, getD_set_cases, if_neg (by tauto)]
            exact hq2
          · rw [getProc_mk, getD_set_cases, if_neg (by tauto)]
            exact hq3
        · exact hIr.queue_nodup
        · intro i hi hin
          rw [List.length_set] at hi
          by_cases hip : pid = i
          · subst hip
            rw [getProc_mk, getD_set_cases, if_pos ⟨rfl, hlen⟩,
              show pF.is_active = (getProc r.1 pid).is_active from rfl, hcact] at hin
            cases hin
          · rw [getProc_mk, getD_set_cases, if_neg (by tauto)] at hin
            exact hIr.inactive_queued i hi hin
      · rw [if_neg hfin]
        set p2 : Process :=
          { page_table := (getProc r.1 pid).page_table,
            array_size := (getProc r.1 pid).array_size,
            search_indices := (getProc r.1 pid).search_indices,
            num_searches := (getProc r.1 pid).num_searches,
            current_search := (getProc r.1 pid).current_search + 1,
            frames_allocated := (getProc r.1 pid).frames_allocated,
            is_active := (getProc r.1 pid).is_active } with hp2def
        refine ⟨?_, ?_, ?_, ?_, ?_, ?_, ?_, ?_, ?_, ?_⟩
        · intro q hq
          rcases List.mem_or_eq_of_mem_set hq with hold | heq
          · exact hIr.pt_len q hold
          · rw [heq, show p2.page_table = (getProc r.1 pid).page_table from rfl]
            exact hIr.pt_len _ hmemr
        · intro q hq
          rcases List.mem_or_eq_of_mem_set hq with hold | heq
          · exact hIr.fa_eq q hold
          · rw [heq, show p2.frames_allocated = (getProc r.1 pid).frames_allocated from rfl,
              show p2.page_table = (getProc r.1 pid).page_table from rfl]
            exact hIr.fa_eq _ hmemr
        · intro q hq hqf
          rcases List.mem_or_eq_of_mem_set hq with hold | heq
          · exact hIr.inactive_zero q hold hqf
          · rw [heq, show p2.is_active = (getProc r.1 pid).is_active from rfl, hcact] at hqf
            cases hqf
        · show ((r.1.processes.set pid p2).map (fun p => ptFrames p.page_table)).sum
              + ↑r.1.free_frames = Multiset.range USER_FRAMES
          have h1 := framesMS_set r.1 pid p2 hlen
          rw [show p2.page_table = (getProc r.1 pid).page_table from rfl] at h1
          have h2 := add_right_cancel h1
          rw [h2]
          exact hIr.conserve
        · intro q hq
          rcases List.mem_or_eq_of_mem_set hq with hold | heq
          · exact hIr.arr_bound q hold
          · rw [heq, show p2.array_size = (getProc r.1 pid).array_size from rfl]
            exact hIr.arr_bound _ hmemr
        · intro q hq hqact hqunf j hj
          rcases List.mem_or_eq_of_mem_set hq with hold | heq
          · exact hIr.essential q hold hqact hqunf j hj
          · rw [heq, show p2.page_table = (getProc r.1 pid).page_table from rfl]
            exact hIr.essential _ hmemr hcact hunfr j hj
        · intro q hq hge
          rcases List.mem_or_eq_of_mem_set hq with hold | heq
          · exact hIr.completed q hold hge
          · exfalso
            rw [heq, show p2.current_search = (getProc r.1 pid).current_search + 1 from rfl,
              show p2.num_searches = (getProc r.1 pid).num_searches from rfl] at hge
            omega
        · intro q hq
          obtain ⟨hq1, hq2, hq3⟩ := hIr.queue_mem q hq
          have hqne : pid ≠ q := by
            intro he
            rw [← he] at hq
            exact hnotq hq
          refine ⟨by show q < (r.1.processes.set pid p2).length
                     rw [List.length_set]
                     exact hq1, ?_, ?_⟩
          · rw [getProc_mk, getD_set_cases, if_neg (by tauto)]
            exact hq2
          · rw [getProc_mk, getD_set_cases, if_neg (by tauto)]
            exact hq3
        · exact hIr.queue_nodup
        · intro i hi hin
          rw [List.length_set] at hi
          by_cases hip : pid = i
          · subst hip
            rw [getProc_mk, getD_set_cases, if_pos ⟨rfl, hlen⟩,
              show p2.is_active = (getProc r.1 pid).is_active from rfl, hcact] at hin
            cases hin
          · rw [getProc_mk, getD_set_cases, if_neg (by tauto)] at hin
            exact hIr.inactive_queued i hi hin

theorem countValid_replicate_zero (n : Nat) : countValid (List.replicate n 0) = 0 := by
  induction n with
  | zero => rfl
  | succ k ih =>
    unfold countValid at ih ⊢
    rw [List.replicate_succ, List.filter_cons]
    simp only [entryValid_zero]
    exact ih

theorem initProcs_spec (S : Nat) :
    ∀ (procs : List ProcInput) (free : List Nat),
      (∀ f ∈ free, f < 32768) →
      ESSENTIAL_PAGES * procs.length ≤ free.length →
      (initProcs S procs free).1.length = procs.length ∧
      (((initProcs S procs free).1.map (fun p => ptFrames p.page_table)).sum
          + ↑(initProcs S procs free).2 = (↑free : Multiset Nat)) ∧
      ((initProcs S procs free).2.length + ESSENTIAL_PAGES * procs.length
          = free.length) ∧
      (∀ p ∈ (initProcs S procs free).1,
        p.page_table.length = PAGE_TABLE_SIZE ∧
        p.frames_allocated = countValid p.page_table ∧
        p.is_active = true ∧ p.current_search = 0 ∧ p.num_searches = S ∧
        (∀ j < ESSENTIAL_PAGES, entryValid (p.page_table.getD j 0) = true) ∧
        (∃ pi ∈ procs, p.array_size = pi.array_size)) := by
  intro procs
  induction procs with
  | nil =>
    intro free _ _
    refine ⟨rfl, by simp [initProcs], by simp [initProcs], ?_⟩
    intro p hp
    cases hp
  | cons pi rest ih =>
    intro free hsmall hlen
    have h10 : ESSENTIAL_PAGES ≤ free.length := by
      rw [List.length_cons] at hlen
      unfold ESSENTIAL_PAGES at hlen ⊢
      omega
    have hinvslots : ∀ j, 0 ≤ j → j < 0 + ESSENTIAL_PAGES →
        entryValid ((List.replicate PAGE_TABLE_SIZE 0).getD j 0) = false := by
      intro j _ hj
      have hm : (List.replicate PAGE_TABLE_SIZE 0).getD j 0 ∈
          List.replicate PAGE_TABLE_SIZE 0 :=
        getD_mem_of_lt _ j 0 (by
          rw [List.length_replicate]
          unfold ESSENTIAL_PAGES at hj
          unfold PAGE_TABLE_SIZE
          omega)
      rw [List.eq_of_mem_replicate hm]
      exact entryValid_zero
    have hlen10 : 0 + ESSENTIAL_PAGES ≤ (List.replicate PAGE_TABLE_SIZE 0).length := by
      rw [List.length_replicate]
      decide
    have htake : ∀ f ∈ free.take ESSENTIAL_PAGES, f < 32768 := by
      intro f hf
      exact hsmall f (List.take_subset _ _ hf)
    obtain ⟨hal1, hal2⟩ := allocLoop_ptFrames ESSENTIAL_PAGES 0
      (List.replicate PAGE_TABLE_SIZE 0) free 0 hinvslots hlen10 htake
    have hdropsmall : ∀ f ∈ free.drop ESSENTIAL_PAGES, f < 32768 := by
      intro f hf
      exact hsmall f (List.drop_subset _ _ hf)
    have hdroplen : ESSENTIAL_PAGES * rest.length ≤
        (free.drop ESSENTIAL_PAGES).length := by
      rw [List.length_drop]
      rw [List.length_cons] at hlen
      unfold ESSENTIAL_PAGES at hlen ⊢
      omega
    obtain ⟨ih1, ih2, ih3, ih4⟩ := ih (free.drop ESSENTIAL_PAGES) hdropsmall hdroplen
    have hfr : (allocLoop ESSENTIAL_PAGES 0 (List.replicate PAGE_TABLE_SIZE 0)
        free 0).2.1 = free.drop ESSENTIAL_PAGES := allocLoop_free _ _ _ _ _
    refine ⟨?_, ?_, ?_, ?_⟩
    · simp only [initProcs, List.length_cons]
      rw [hfr, ih1]
    · simp only [initProcs, List.map_cons, List.sum_cons]
      rw [hfr, hal1, ptFrames_zero_of_countValid (countValid_replicate_zero _), add_zero]
      have htd : (↑(free.take ESSENTIAL_PAGES) : Multiset Nat)
          + ↑(free.drop ESSENTIAL_PAGES) = ↑free := by
        rw [Multiset.coe_add, List.take_append_drop]
      rw [add_assoc, ih2, htd]
    · simp only [initProcs, List.length_cons]
      rw [hfr]
      rw [List.length_drop] at ih3
      rw [List.length_cons] at hlen
      unfold ESSENTIAL_PAGES at ih3 hlen ⊢
      omega
    · intro p hp
      simp only [initProcs] at hp
      rcases List.mem_cons.mp hp with heq | hold
      · subst heq
        refine ⟨?_, ?_, rfl, rfl, rfl, ?_, ⟨pi, List.mem_cons_self pi rest, rfl⟩⟩
        · show (allocLoop ESSENTIAL_PAGES 0 (List.replicate PAGE_TABLE_SIZE 0)
            free 0).1.length = PAGE_TABLE_SIZE
          rw [allocLoop_length, List.length_replicate]
        · show (allocLoop ESSENTIAL_PAGES 0 (List.replicate PAGE_TABLE_SIZE 0)
            free 0).2.2 = countValid (allocLoop ESSENTIAL_PAGES 0
              (List.replicate PAGE_TABLE_SIZE 0) free 0).1
          rw [allocLoop_fa, hal2, countValid_replicate_zero]
        · intro j hj
          show entryValid ((allocLoop ESSENTIAL_PAGES 0
            (List.replicate PAGE_TABLE_SIZE 0) free 0).1.getD j 0) = true
          exact allocLoop_valid_slots ESSENTIAL_PAGES 0 _ _ _ h10 hlen10 j
            (by omega) (by omega)
      · rw [hfr] at hold
        obtain ⟨g1, g2, g3, g4, g5, g6, pi', hpi', g7⟩ := ih4 p hold
        exact ⟨g1, g2, g3, g4, g5, g6, pi', List.mem_cons_of_mem pi hpi', g7⟩

theorem descList_eq_reverse_range (n : Nat) :
    descList n = (List.range n).reverse := by
  induction n with
  | zero => rfl
  | succ k ih =>
    rw [descList, List.range_succ, List.reverse_append, ih]
    rfl

theorem initFreeFrames_eq :
    initFreeFrames = (List.range USER_FRAMES).reverse :=
  descList_eq_reverse_range USER_FRAMES

theorem inv_init (inp : Input) (hv : validInput inp) : Inv (initSystem inp) := by
  obtain ⟨hP1, hP2, hS1, hS2, hpi⟩ := hv
  have hsmall0 : ∀ f ∈ initFreeFrames, f < 32768 := by
    intro f hf
    rw [initFreeFrames_eq, List.mem_reverse] at hf
    have := List.mem_range.mp hf
    unfold USER_FRAMES at this
    omega
  have hlen0 : ESSENTIAL_PAGES * inp.procs.length ≤ initFreeFrames.length := by
    rw [initFreeFrames_eq, List.length_reverse, List.length_range]
    unfold MAX_PROCESSES at hP2
    unfold ESSENTIAL_PAGES USER_FRAMES
    omega
  obtain ⟨h1, h2, h3, h4⟩ :=
    initProcs_spec inp.numSearches inp.procs initFreeFrames hsmall0 hlen0
  have hrange : (↑initFreeFrames : Multiset Nat) = Multiset.range USER_FRAMES := by
    rw [initFreeFrames_eq, Multiset.coe_reverse]
    rfl
  refine ⟨?_, ?_, ?_, ?_, ?_, ?_, ?_, ?_, ?_, ?_⟩
  · intro p hp
    exact (h4 p hp).1
  · intro p hp
    exact (h4 p hp).2.1
  · intro p hp hf
    rw [(h4 p hp).2.2.1] at hf
    cases hf
  · show ((initProcs inp.numSearches inp.procs initFreeFrames).1.map
        (fun p => ptFrames p.page_table)).sum
      + ↑(initProcs inp.numSearches inp.procs initFreeFrames).2
      = Multiset.range USER_FRAMES
    rw [h2, hrange]
  · intro p hp
    obtain ⟨pi, hpim, hpe⟩ := (h4 p hp).2.2.2.2.2.2
    rw [hpe]
    exact (hpi pi hpim).2
  · intro p hp _ _ j hj
    exact (h4 p hp).2.2.2.2.2.1 j hj
  · intro p hp hge
    rw [(h4 p hp).2.2.2.1, (h4 p hp).2.2.2.2.1] at hge
    omega
  · intro q hq
    cases hq
  · exact List.nodup_nil
  · intro i hi hin
    have hm := getProc_mem (initSystem inp) i hi
    rw [(h4 _ hm).2.2.1] at hin
    cases hin

/-- Every reachable state of a run on valid input satisfies the invariant. -/
theorem inv_reachable (inp : Input) (s : SystemState) (hv : validInput inp)
    (hr : Reachable inp s) : Inv s := by
  induction hr with
  | init => exact inv_init inp hv
  | step t pid hr hp ih => exact inv_simulate t pid ih

/-- **C1** Frame conservation: at every reachable state of a run on valid
input, the number of free frames plus the sum of all processes'
`frames_allocated` equals `USER_FRAMES`, and the multiset of frames held by
all valid page-table entries together with the free pool is exactly the
frame space `{0, …, USER_FRAMES - 1}` — no frame assigned twice, none
lost.  Reachability is closed under `simulate_binary_search`, which
contains page-fault handling, swap-out, swap-in and completion release, so
the invariant is preserved by all of them and by initialization. -/
theorem frame_conservation (inp : Input) (s : SystemState)
    (hv : validInput inp) (hr : Reachable inp s) :
    s.free_frames.length + sumFA s = USER_FRAMES ∧
    framesMS s + ↑s.free_frames = Multiset.range USER_FRAMES := by
  have hI := inv_reachable inp s hv hr
  refine ⟨?_, hI.conserve⟩
  have hc := congrArg Multiset.card hI.conserve
  rw [Multiset.card_add, Multiset.coe_card, Multiset.card_range] at hc
  have hcard : Multiset.card (framesMS s) = sumFA s :=
    card_sum_ptFrames s.processes hI.fa_eq
  omega

/-- One process, one search over a two-element array. -/
def inpW : Input := { numSearches := 1, procs := [{ array_size := 2, keys := [0] }] }

theorem frame_conservation_witness :
    validInput inpW ∧
    (initSystem inpW).free_frames.length + sumFA (initSystem inpW) = USER_FRAMES :=
  ⟨by decide, (frame_conservation inpW (initSystem inpW) (by decide) Reachable.init).1⟩

/-- **C6 (amended)** Active/resident consistency: at every reachable state,
an inactive process holds zero resident frames, and for every process that
still has pending searches the active flag is equivalent to holding a
positive number of frames (an active pending process holds its essential
pages).  The equivalence does not extend to processes that have finished
all their searches: completion releases every frame but leaves the process
marked active (see the counterexample). -/
theorem active_resident_consistency (inp : Input) (s : SystemState)
    (hv : validInput inp) (hr : Reachable inp s) (pid : Nat)
    (hpid : pid < s.processes.length) :
    ((getProc s pid).is_active = false → (getProc s pid).frames_allocated = 0) ∧
    ((getProc s pid).current_search < (getProc s pid).num_searches →
      ((getProc s pid).is_active = true ↔ 0 < (getProc s pid).frames_allocated)) := by
  have hI := inv_reachable inp s hv hr
  have hmem := getProc_mem s pid hpid
  constructor
  · intro hin
    rw [hI.fa_eq _ hmem]
    exact hI.inactive_zero _ hmem hin
  · intro hunf
    constructor
    · intro hact
      rw [hI.fa_eq _ hmem]
      apply countValid_pos_of_valid_slot 0
      · rw [hI.pt_len _ hmem]
        decide
      · exact hI.essential _ hmem hact hunf 0 (by decide)
    · intro hfa
      cases hb : (getProc s pid).is_active
      · exfalso
        have hz := hI.inactive_zero _ hmem hb
        rw [hI.fa_eq _ hmem, hz] at hfa
        omega
      · rfl

theorem active_resident_consistency_witness :
    validInput inpW ∧ 0 < (initSystem inpW).processes.length ∧
    ((getProc (initSystem inpW) 0).is_active = false →
      (getProc (initSystem inpW) 0).frames_allocated = 0) :=
  ⟨by decide, by decide,
    (active_resident_consistency inpW _ (by decide) Reachable.init 0 (by decide)).1⟩

/-- **C6 counterexample**: the claim `active == (frames_resident > 0)` as
stated is false on the code.  On the one-process input `inpW`, after the
single scheduler turn that completes the process's only search, the
process has released all its frames (`frames_allocated = 0`) yet is still
marked active — a reachable state with `is_active = true` and zero
resident frames. -/
theorem active_resident_counterexample :
    Reachable inpW (simulate_binary_search (initSystem inpW) 0) ∧
    (getProc (simulate_binary_search (initSystem inpW) 0) 0).is_active = true ∧
    (getProc (simulate_binary_search (initSystem inpW) 0) 0).frames_allocated = 0 := by
  refine ⟨Reachable.step _ 0 Reachable.init (by decide), ?_, ?_⟩
  · rw [simulate_eq_exec (initSystem inpW) 0 1000 (by decide)]
    decide
  · rw [simulate_eq_exec (initSystem inpW) 0 1000 (by decide)]
    decide

/-! ## Termination of the main loop

The scheduler measure: every swap-out decreases the live active count with
the total remaining search count unchanged, and every completed search
decreases the remaining count (a drain can re-activate at most
`num_processes` processes), so
`(len + 1) * remaining + activeCount` decreases lexicographically at every
non-no-op scheduler turn. -/

/-- Total number of searches still to be performed. -/
def remaining (s : SystemState) : Nat :=
  (s.processes.map (fun p => p.num_searches - p.current_search)).sum

/-- The termination measure of the scheduling loop. -/
def measureOf (s : SystemState) : Nat :=
  (s.processes.length + 1) * remaining s + activeCount s

/-- Process `i` still has pending searches. -/
def unfinishedAt (s : SystemState) (i : Nat) : Prop :=
  (getProc s i).current_search < (getProc s i).num_searches

/-- If any process is unfinished, some unfinished process is active. -/
def AU (s : SystemState) : Prop :=
  (∃ i, i < s.processes.length ∧ unfinishedAt s i) →
  ∃ j, j < s.processes.length ∧ (getProc s j).is_active = true ∧ unfinishedAt s j

theorem getD_eq_getElem {α : Type} (l : List α) (i : Nat) (d : α) (h : i < l.length) :
    l.getD i d = l[i] := by
  rw [List.getD_eq_getElem?_getD, List.getElem?_eq_getElem h]
  rfl

theorem sum_map_eq_of_getD {α : Type} (f : α → Nat) (d : α) :
    ∀ (l₁ l₂ : List α), l₁.length = l₂.length →
      (∀ i, i < l₁.length → f (l₁.getD i d) = f (l₂.getD i d)) →
      (l₁.map f).sum = (l₂.map f).sum := by
  intro l₁
  induction l₁ with
  | nil =>
    intro l₂ hlen _
    cases l₂ with
    | nil => rfl
    | cons b t => simp at hlen
  | cons a t ih =>
    intro l₂ hlen h
    cases l₂ with
    | nil => simp at hlen
    | cons b t2 =>
      simp only [List.map_cons, List.sum_cons]
      have h0 := h 0 (by simp)
      rw [List.getD_cons_zero, List.getD_cons_zero] at h0
      rw [h0, ih t2 (by simpa using hlen) (fun i hi => by
        have := h (i + 1) (by simpa using Nat.succ_lt_succ hi)
        rwa [List.getD_cons_succ, List.getD_cons_succ] at this)]

theorem le_sum_map_of_getD {α : Type} (f : α → Nat) (d : α) :
    ∀ (l : List α) (i : Nat), i < l.length → f (l.getD i d) ≤ (l.map f).sum := by
  intro l
  induction l with
  | nil =>
    intro i hi
    simp at hi
  | cons a t ih =>
    intro i hi
    cases i with
    | zero =>
      rw [List.getD_cons_zero]
      simp only [List.map_cons, List.sum_cons]
      omega
    | succ j =>
      rw [List.getD_cons_succ]
      simp only [List.map_cons, List.sum_cons]
      have := ih j (by simpa using hi)
      omega

theorem sum_map_le_of_single {α : Type} (f : α → Nat) (d : α) :
    ∀ (l : List α) (pid : Nat),
      (∀ j, j < l.length → j ≠ pid → f (l.getD j d) = 0) →
      (l.map f).sum ≤ f (l.getD pid d) := by
  intro l
  induction l with
  | nil =>
    intro pid _
    simp
  | cons a t ih =>
    intro pid h
    cases pid with
    | zero =>
      rw [List.getD_cons_zero]
      simp only [List.map_cons, List.sum_cons]
      have ht : (t.map f).sum ≤ f (t.getD 0 d) := by
        rcases t with _ | ⟨b, t2⟩
        · simp
        · have hz : ∀ j, j < (b :: t2).length → f ((b :: t2).getD j d) = 0 := by
            intro j hj
            have := h (j + 1) (by simpa using Nat.succ_lt_succ hj) (by omega)
            rwa [List.getD_cons_succ] at this
          apply le_trans (ih 0 (fun j hj hne => hz j hj))
          rw [hz 0 (by simp)]
      rcases t with _ | ⟨b, t2⟩
      · simp
      · have hz0 := h 1 (by simp) (by omega)
        rw [List.getD_cons_succ, List.getD_cons_zero] at hz0
        rw [List.getD_cons_zero] at ht
        rw [hz0] at ht
        omega
    | succ k =>
      rw [List.getD_cons_succ]
      simp only [List.map_cons, List.sum_cons]
      have ha := h 0 (by simp) (by omega)
      rw [List.getD_cons_zero] at ha
      have := ih k (fun j hj hne => by
        have := h (j + 1) (by simpa using Nat.succ_lt_succ hj) (by omega)
        rwa [List.getD_cons_succ] at this)
      omega

theorem remaining_eq_of_statics {s t : SystemState} (h : StaticsEq s t) :
    remaining t = remaining s := by
  unfold remaining
  apply sum_map_eq_of_getD _ defaultProcess t.processes s.processes
  · rw [h.1]
  · intro i _
    have hi := h.2 i
    show (getProc t i).num_searches - (getProc t i).current_search =
      (getProc s i).num_searches - (getProc s i).current_search
    rw [hi.1, hi.2.1]

theorem countValid_ge_of_prefix_valid :
    ∀ (pt : List Nat) (k : Nat), k ≤ pt.length →
      (∀ j, j < k → entryValid (pt.getD j 0) = true) → k ≤ countValid pt := by
  intro pt
  induction pt with
  | nil =>
    intro k hk _
    simp at hk
    omega
  | cons e t ih =>
    intro k hk hv
    cases k with
    | zero => omega
    | succ m =>
      have h0 := hv 0 (by omega)
      rw [List.getD_cons_zero] at h0
      have ht := ih m (by simpa using hk) (fun j hj => by
        have := hv (j + 1) (by omega)
        rwa [List.getD_cons_succ] at this)
      unfold countValid at ht ⊢
      rw [List.filter_cons, h0]
      simp only [if_true, List.length_cons]
      omega

theorem activeCount_le_length (s : SystemState) :
    activeCount s ≤ s.processes.length :=
  List.countP_le_length _

theorem one_le_countP_active (l : List Process) (pid : Nat) (hpid : pid < l.length)
    (hact : (l.getD pid defaultProcess).is_active = true) :
    1 ≤ l.countP (fun p => p.is_active) := by
  have hmem : l.getD pid defaultProcess ∈ l := getD_mem_of_lt l pid _ hpid
  have hsub : [l.getD pid defaultProcess].Sublist l := List.singleton_sublist.mpr hmem
  have hle := List.Sublist.countP_le (fun p => p.is_active) hsub
  have h1 : [l.getD pid defaultProcess].countP (fun p => p.is_active) = 1 := by
    simp only [List.countP_cons, List.countP_nil, Nat.zero_add]
    rw [hact]
    rfl
  omega

/-- Updating a process with one of the same activity flag keeps the count. -/
theorem activeCount_set_same (l : List Process) (pid : Nat) (p' : Process)
    (hpid : pid < l.length)
    (hsame : p'.is_active = (l.getD pid defaultProcess).is_active) :
    (l.set pid p').countP (fun p => p.is_active) = l.countP (fun p => p.is_active) := by
  rw [List.countP_set _ _ _ _ hpid, ← getD_eq_getElem l pid defaultProcess hpid, ← hsame]
  cases hp : p'.is_active
  · simp [hp]
  · have hact : (l.getD pid defaultProcess).is_active = true := by rw [← hsame, hp]
    have hle := one_le_countP_active l pid hpid hact
    have hred : (if (true : Bool) = true then 1 else 0) = 1 := by decide
    rw [hred]
    omega

/-- Deactivating an active process decreases the count by one. -/
theorem activeCount_set_deact (l : List Process) (pid : Nat) (p' : Process)
    (hpid : pid < l.length) (hact : (l.getD pid defaultProcess).is_active = true)
    (hnew : p'.is_active = false) :
    (l.set pid p').countP (fun p => p.is_active) + 1 =
      l.countP (fun p => p.is_active) := by
  rw [List.countP_set _ _ _ _ hpid, ← getD_eq_getElem l pid defaultProcess hpid, hact, hnew]
  have hle := one_le_countP_active l pid hpid hact
  have hred : (if (true : Bool) = true then 1 else 0) = 1 := by decide
  have hz : (if (false : Bool) = true then 1 else 0) = 0 := by decide
  rw [hred, hz]
  omega

theorem hpf_eq_nil (s : SystemState) (pid pg : Nat) (hfree : s.free_frames = []) :
    handle_page_fault s pid pg = (swap_out_process s pid, false) := by
  unfold handle_page_fault
  split
  · rename_i f rest heq
    rw [hfree] at heq
    cases heq
  · rfl

theorem hpf_snd_true (s : SystemState) (pid pg : Nat) (f : Nat) (rest : List Nat)
    (hfree : s.free_frames = f :: rest) :
    (handle_page_fault s pid pg).2 = true := by
  unfold handle_page_fault
  split
  · rfl
  · rename_i heq
    rw [hfree] at heq
    cases heq

theorem activeCount_swap_out (s : SystemState) (pid : Nat)
    (hpid : pid < s.processes.length) (hact : (getProc s pid).is_active = true) :
    activeCount (swap_out_process s pid) + 1 = activeCount s := by
  simp only [swap_out_process]
  rw [if_neg (by rw [hact]; decide)]
  split
  · exact activeCount_set_deact s.processes pid _ hpid hact rfl
  · exact activeCount_set_deact s.processes pid _ hpid hact rfl

theorem hpf_eq_cons (s : SystemState) (pid pg f : Nat) (rest : List Nat)
    (hfree : s.free_frames = f :: rest) :
    handle_page_fault s pid pg =
      ({ s with free_frames := rest,
                processes := s.processes.set pid
                  { getProc s pid with
                      page_table := (getProc s pid).page_table.set pg (mkEntry f),
                      frames_allocated := (getProc s pid).frames_allocated + 1 } },
        true) := by
  unfold handle_page_fault
  split
  · rename_i f' rest' heq
    rw [hfree] at heq
    cases heq
    rfl
  · rename_i heq
    rw [hfree] at heq
    cases heq

theorem activeCount_hpf_success (s : SystemState) (pid pg : Nat)
    (hpid : pid < s.processes.length)
    (hs : (handle_page_fault s pid pg).2 = true) :
    activeCount (handle_page_fault s pid pg).1 = activeCount s := by
  rcases hfe : s.free_frames with _ | ⟨f, rest⟩
  · rw [hpf_eq_nil s pid pg hfe] at hs
    cases hs
  · rw [hpf_eq_cons s pid pg f rest hfe]
    exact activeCount_set_same s.processes pid _ hpid rfl

theorem searchLoop_activeCount (s : SystemState) (pid : Nat) (key : Int) (L R : Nat)
    (hpid : pid < s.processes.length) (hact : (getProc s pid).is_active = true) :
    ((searchLoop s pid key L R).2.1 = true →
      activeCount (searchLoop s pid key L R).1 = activeCount s) ∧
    ((searchLoop s pid key L R).2.1 = false →
      activeCount (searchLoop s pid key L R).1 + 1 = activeCount s) := by
  induction s, pid, key, L, R using searchLoop.induct with
  | case1 s pid key L R h M page_num s1 hvalid hkey ih =>
    rw [searchLoop]
    simp only [dif_pos h, if_pos hvalid, if_pos hkey]
    exact ih hpid hact
  | case2 s pid key L R h M page_num s1 hvalid hkey ih =>
    rw [searchLoop]
    simp only [dif_pos h, if_pos hvalid, if_neg hkey]
    exact ih hpid hact
  | case3 s pid key L R h M page_num s1 hvalid s2 hp hhp hkey ih =>
    rw [searchLoop]
    simp only [dif_pos h, if_neg hvalid, if_pos hhp, if_pos hkey]
    have hlen : pid < hp.1.processes.length := by
      rw [(staticsEq_hpf s2 pid page_num).1]
      exact hpid
    have hacthp : (getProc hp.1 pid).is_active = true := by
      rw [is_active_hpf_success s2 pid page_num hhp]
      exact hact
    have hach : activeCount hp.1 = activeCount s :=
      activeCount_hpf_success s2 pid page_num hpid hhp
    obtain ⟨ih1, ih2⟩ := ih hlen hacthp
    constructor
    · intro hc
      rw [ih1 hc, hach]
    · intro hc
      rw [← hach]
      exact ih2 hc
  | case4 s pid key L R h M page_num s1 hvalid s2 hp hhp hkey ih =>
    rw [searchLoop]
    simp only [dif_pos h, if_neg hvalid, if_pos hhp, if_neg hkey]
    have hlen : pid < hp.1.processes.length := by
      rw [(staticsEq_hpf s2 pid page_num).1]
      exact hpid
    have hacthp : (getProc hp.1 pid).is_active = true := by
      rw [is_active_hpf_success s2 pid page_num hhp]
      exact hact
    have hach : activeCount hp.1 = activeCount s :=
      activeCount_hpf_success s2 pid page_num hpid hhp
    obtain ⟨ih1, ih2⟩ := ih hlen hacthp
    constructor
    · intro hc
      rw [ih1 hc, hach]
    · intro hc
      rw [← hach]
      exact ih2 hc
  | case5 s pid key L R h M page_num s1 hvalid s2 hp hhp =>
    rw [searchLoop]
    simp only [dif_pos h, if_neg hvalid, if_neg hhp]
    constructor
    · intro hc
      cases hc
    · intro _
      have hfree : s2.free_frames = [] := by
        rcases hfe : s2.free_frames with _ | ⟨f, rest⟩
        · rfl
        · exact absurd (hpf_snd_true s2 pid page_num f rest hfe) hhp
      rw [show hp.1 = swap_out_process s2 pid from by
        rw [show hp = handle_page_fault s2 pid page_num from rfl,
          hpf_eq_nil s2 pid page_num hfree]]
      exact activeCount_swap_out s2 pid hpid hact
  | case6 s pid key L R h =>
    have he : searchLoop s pid key L R = (s, true, []) := by
      rw [searchLoop]
      exact dif_neg h
    rw [he]
    exact ⟨fun _ => rfl, fun hc => by cases hc⟩

theorem survivor_of_no_free (t : SystemState) (pid : Nat) (hI : Inv t)
    (hpid : pid < t.processes.length) (hfree : t.free_frames = []) :
    ∃ j, j < t.processes.length ∧ j ≠ pid ∧
      (getProc t j).is_active = true ∧ unfinishedAt t j := by
  have hc := congrArg Multiset.card hI.conserve
  rw [Multiset.card_add, Multiset.coe_card, Multiset.card_range, hfree] at hc
  have hcard := card_sum_ptFrames t.processes hI.fa_eq
  by_contra hno
  push_neg at hno
  have hz : ∀ j, j < t.processes.length → j ≠ pid →
      (fun p => p.frames_allocated) (t.processes.getD j defaultProcess) = 0 := by
    intro j hj hne
    show (getProc t j).frames_allocated = 0
    have hmem := getProc_mem t j hj
    cases hb : (getProc t j).is_active
    · rw [hI.fa_eq _ hmem]
      exact hI.inactive_zero _ hmem hb
    · have hnu := hno j hj hne hb
      unfold unfinishedAt at hnu
      push_neg at hnu
      rw [hI.fa_eq _ hmem]
      exact (hI.completed _ hmem hnu).2
  have hle : (t.processes.map (fun p => p.frames_allocated)).sum ≤
      (getProc t pid).frames_allocated :=
    sum_map_le_of_single (fun p => p.frames_allocated)
      defaultProcess t.processes pid hz
  have hmemp := getProc_mem t pid hpid
  have hfap : (getProc t pid).frames_allocated ≤ 2048 := by
    rw [hI.fa_eq _ hmemp]
    calc countValid (getProc t pid).page_table
        ≤ (getProc t pid).page_table.length := countValid_le_length _
      _ = PAGE_TABLE_SIZE := hI.pt_len _ hmemp
  have hsum : (t.processes.map (fun p => p.frames_allocated)).sum = 12288 := by
    have hcd : Multiset.card (framesMS t) =
        (t.processes.map (fun p => p.frames_allocated)).sum := hcard
    simp only [List.length_nil] at hc
    rw [hcd] at hc
    exact hc
  omega

theorem searchLoop_survivor (s : SystemState) (pid : Nat) (key : Int) (L R : Nat)
    (hI : Inv s) (hpid : pid < s.processes.length)
    (hact : (getProc s pid).is_active = true)
    (hunf : (getProc s pid).current_search < (getProc s pid).num_searches)
    (hR : R ≤ ((getProc s pid).array_size - 1).toNat)
    (hab : (searchLoop s pid key L R).2.1 = false) :
    ∃ j, j < (searchLoop s pid key L R).1.processes.length ∧ j ≠ pid ∧
      (getProc (searchLoop s pid key L R).1 j).is_active = true ∧
      unfinishedAt (searchLoop s pid key L R).1 j := by
  induction s, pid, key, L, R using searchLoop.induct with
  | case1 s pid key L R h M page_num s1 hvalid hkey ih =>
    rw [searchLoop] at hab ⊢
    simp only [dif_pos h, if_pos hvalid, if_pos hkey] at hab ⊢
    apply ih (inv_of_same s _ rfl rfl rfl hI) hpid hact hunf
    · have hM : M = (L + R) / 2 := rfl
      rw [show (getProc s1 pid).array_size = (getProc s pid).array_size from rfl]
      omega
    · exact hab
  | case2 s pid key L R h M page_num s1 hvalid hkey ih =>
    rw [searchLoop] at hab ⊢
    simp only [dif_pos h, if_pos hvalid, if_neg hkey] at hab ⊢
    apply ih (inv_of_same s _ rfl rfl rfl hI) hpid hact hunf
    · rw [show (getProc s1 pid).array_size = (getProc s pid).array_size from rfl]
      exact hR
    · exact hab
  | case3 s pid key L R h M page_num s1 hvalid s2 hp hhp hkey ih =>
    rw [searchLoop] at hab ⊢
    simp only [dif_pos h, if_neg hvalid, if_pos hhp, if_pos hkey] at hab ⊢
    have hM : M = (L + R) / 2 := rfl
    have hpg : page_num = M * 4 / 4096 + 10 := rfl
    have harr : (getProc s pid).array_size ≤ 2086913 :=
      hI.arr_bound _ (getProc_mem s pid hpid)
    have hI2 : Inv s2 := inv_of_same s s2 rfl rfl rfl hI
    have hIhp : Inv hp.1 := by
      apply inv_hpf s2 pid page_num hI2 hpid hact hunf
      · show 10 ≤ page_num
        omega
      · show page_num < 2048
        omega
      · rw [Bool.not_eq_true] at hvalid
        exact hvalid
    have hst := staticsEq_hpf s2 pid page_num
    apply ih hIhp
    · rw [hst.1]
      exact hpid
    · rw [is_active_hpf_success s2 pid page_num hhp]
      exact hact
    · rw [(hst.2 pid).1, (hst.2 pid).2.1]
      exact hunf
    · rw [(hst.2 pid).2.2.1]
      show M ≤ ((getProc s pid).array_size - 1).toNat
      omega
    · exact hab
  | case4 s pid key L R h M page_num s1 hvalid s2 hp hhp hkey ih =>
    rw [searchLoop] at hab ⊢
    simp only [dif_pos h, if_neg hvalid, if_pos hhp, if_neg hkey] at hab ⊢
    have hM : M = (L + R) / 2 := rfl
    have hpg : page_num = M * 4 / 4096 + 10 := rfl
    have harr : (getProc s pid).array_size ≤ 2086913 :=
      hI.arr_bound _ (getProc_mem s pid hpid)
    have hI2 : Inv s2 := inv_of_same s s2 rfl rfl rfl hI
    have hIhp : Inv hp.1 := by
      apply inv_hpf s2 pid page_num hI2 hpid hact hunf
      · show 10 ≤ page_num
        omega
      · show page_num < 2048
        omega
      · rw [Bool.not_eq_true] at hvalid
        exact hvalid
    have hst := staticsEq_hpf s2 pid page_num
    apply ih hIhp
    · rw [hst.1]
      exact hpid
    · rw [is_active_hpf_success s2 pid page_num hhp]
      exact hact
    · rw [(hst.2 pid).1, (hst.2 pid).2.1]
      exact hunf
    · rw [(hst.2 pid).2.2.1]
      exact hR
    · exact hab
  | case5 s pid key L R h M page_num s1 hvalid s2 hp hhp =>
    rw [searchLoop]
    simp only [dif_pos h, if_neg hvalid, if_neg hhp]
    have hfree : s2.free_frames = [] := by
      rcases hfe : s2.free_frames with _ | ⟨f, rest⟩
      · rfl
      · exact absurd (hpf_snd_true s2 pid page_num f rest hfe) hhp
    have hI2 : Inv s2 := inv_of_same s s2 rfl rfl rfl hI
    obtain ⟨j, hj1, hj2, hj3, hj4⟩ := survivor_of_no_free s2 pid hI2 hpid hfree
    rw [show hp.1 = swap_out_process s2 pid from by
      rw [show hp = handle_page_fault s2 pid page_num from rfl,
        hpf_eq_nil s2 pid page_num hfree]]
    refine ⟨j, ?_, hj2, ?_, ?_⟩
    · show j < (swap_out_process s2 pid).processes.length
      rw [(staticsEq_swap_out s2 pid).1]
      exact hj1
    · show (getProc (swap_out_process s2 pid) j).is_active = true
      rw [getProc_swap_out_other s2 pid j (Ne.symm hj2)]
      exact hj3
    · show unfinishedAt (swap_out_process s2 pid) j
      unfold unfinishedAt
      rw [getProc_swap_out_other s2 pid j (Ne.symm hj2)]
      exact hj4
  | case6 s pid key L R h =>
    rw [searchLoop] at hab
    simp only [dif_neg h] at hab
    cases hab

theorem simulate_noop (s : SystemState) (pid : Nat)
    (h : ¬((getProc s pid).is_active = true ∧ unfinishedAt s pid)) :
    simulate_binary_search s pid = s := by
  have hguard : ((!(getProc s pid).is_active) ||
      decide ((getProc s pid).num_searches ≤ (getProc s pid).current_search)) = true := by
    rw [Bool.or_eq_true]
    cases hb : (getProc s pid).is_active
    · left
      rfl
    · right
      have hnu : ¬ unfinishedAt s pid := fun hu => h ⟨hb, hu⟩
      unfold unfinishedAt at hnu
      push_neg at hnu
      exact decide_eq_true hnu
  simp only [simulate_binary_search]
  rw [if_pos hguard]

theorem simulate_progress (s : SystemState) (pid : Nat) (hI : Inv s)
    (hact : (getProc s pid).is_active = true) (hunfa : unfinishedAt s pid) :
    measureOf (simulate_binary_search s pid) < measureOf s := by
  simp only [simulate_binary_search]
  set p := getProc s pid with hp
  have hactive : p.is_active = true := hact
  have hunf : p.current_search < p.num_searches := hunfa
  have hguard :
      ¬(((!p.is_active) || decide (p.num_searches ≤ p.current_search)) = true) := by
    rw [hactive]
    simp only [Bool.not_true, Bool.false_or, decide_eq_true_eq]
    omega
  · rw [if_neg hguard]
    have hpid : pid < s.processes.length := by
      by_contra hcon
      rw [hp, getProc_default s pid (by omega)] at hactive
      exact absurd hactive (by decide)
    set key := p.search_indices.getD p.current_search 0 with hkeydef
    set Rn := (p.array_size - 1).toNat with hRdef
    set r := searchLoop s pid key 0 Rn with hrdef
    have hst : StaticsEq s r.1 := by
      rw [hrdef]
      exact staticsEq_searchLoop s pid key 0 Rn
    have hreml : remaining r.1 = remaining s := remaining_eq_of_statics hst
    have hsc := searchLoop_activeCount s pid key 0 Rn hpid (by rw [← hp]; exact hactive)
    by_cases hab : (!r.2.1) = true
    · rw [if_pos hab]
      have habf : r.2.1 = false := by
        cases hb : r.2.1
        · rfl
        · rw [hb] at hab
          exact absurd hab (by decide)
      have hacr : activeCount r.1 + 1 = activeCount s := by
        rw [hrdef]
        exact hsc.2 (hrdef ▸ habf)
      unfold measureOf
      rw [hst.1, hreml]
      omega
    · rw [if_neg hab]
      have hcomp : r.2.1 = true := by
        cases hb : r.2.1
        · rw [hb] at hab
          exact absurd rfl hab
        · rfl
      have hacr : activeCount r.1 = activeCount s := by
        rw [hrdef]
        exact hsc.1 (hrdef ▸ hcomp)
      have hlen : pid < r.1.processes.length := by
        rw [hst.1]
        exact hpid
      have hcur : (getProc r.1 pid).current_search = p.current_search := (hst.2 pid).1
      have hnum : (getProc r.1 pid).num_searches = p.num_searches := (hst.2 pid).2.1
      have hunfr : (getProc r.1 pid).current_search < (getProc r.1 pid).num_searches := by
        rw [hcur, hnum]
        exact hunf
      by_cases hfin :
          (getProc r.1 pid).num_searches ≤ (getProc r.1 pid).current_search + 1
      · rw [if_pos hfin]
        rw [List.set_set]
        set u := unmapAll (getProc r.1 pid).page_table r.1.free_frames with hudef
        set pF : Process :=
          { page_table := u.1, array_size := (getProc r.1 pid).array_size,
            search_indices := (getProc r.1 pid).search_indices,
            num_searches := (getProc r.1 pid).num_searches,
            current_search := (getProc r.1 pid).current_search + 1,
            frames_allocated := 0,
            is_active := (getProc r.1 pid).is_active } with hpFdef
        set sF : SystemState :=
          { free_frames := u.2, processes := r.1.processes.set pid pF,
            swap_queue := r.1.swap_queue, page_accesses := r.1.page_accesses,
            page_faults := r.1.page_faults, num_swaps := r.1.num_swaps,
            min_active_processes := r.1.min_active_processes } with hsFdef
        have hstF : StaticsEq sF (drainQueue sF) := staticsEq_drainGo sF.swap_queue sF
        have hremd : remaining (drainQueue sF) = remaining sF :=
          remaining_eq_of_statics hstF
        have hlend : (drainQueue sF).processes.length = sF.processes.length := hstF.1
        have hlenF : sF.processes.length = s.processes.length := by
          show (r.1.processes.set pid pF).length = s.processes.length
          rw [List.length_set, hst.1]
        have hremF : remaining sF + 1 = remaining r.1 := by
          have h1 : remaining sF +
              ((getProc r.1 pid).num_searches - (getProc r.1 pid).current_search) =
              remaining r.1 + (pF.num_searches - pF.current_search) :=
            sum_map_set (fun q => q.num_searches - q.current_search)
              defaultProcess r.1.processes pid pF hlen
          have hpFn : pF.num_searches = (getProc r.1 pid).num_searches := rfl
          have hpFc : pF.current_search = (getProc r.1 pid).current_search + 1 := rfl
          omega
        have hacd : activeCount (drainQueue sF) ≤ s.processes.length := by
          have h2 := activeCount_le_length (drainQueue sF)
          rw [hlend, hlenF] at h2
          exact h2
        unfold measureOf
        rw [hlend, hlenF, hremd, ← hreml,
          show remaining r.1 = remaining sF + 1 from by omega,
          Nat.mul_add, Nat.mul_one]
        omega
      · rw [if_neg hfin]
        set p2 : Process :=
          { page_table := (getProc r.1 pid).page_table,
            array_size := (getProc r.1 pid).array_size,
            search_indices := (getProc r.1 pid).search_indices,
            num_searches := (getProc r.1 pid).num_searches,
            current_search := (getProc r.1 pid).current_search + 1,
            frames_allocated := (getProc r.1 pid).frames_allocated,
            is_active := (getProc r.1 pid).is_active } with hp2def
        set sN : SystemState :=
          { free_frames := r.1.free_frames, processes := r.1.processes.set pid p2,
            swap_queue := r.1.swap_queue, page_accesses := r.1.page_accesses,
            page_faults := r.1.page_faults, num_swaps := r.1.num_swaps,
            min_active_processes := r.1.min_active_processes } with hsNdef
        have hlenN : sN.processes.length = s.processes.length := by
          show (r.1.processes.set pid p2).length = s.processes.length
          rw [List.length_set, hst.1]
        have hremN : remaining sN + 1 = remaining r.1 := by
          have h1 : remaining sN +
              ((getProc r.1 pid).num_searches - (getProc r.1 pid).current_search) =
              remaining r.1 + (p2.num_searches - p2.current_search) :=
            sum_map_set (fun q => q.num_searches - q.current_search)
              defaultProcess r.1.processes pid p2 hlen
          have hp2n : p2.num_searches = (getProc r.1 pid).num_searches := rfl
          have hp2c : p2.current_search = (getProc r.1 pid).current_search + 1 := rfl
          omega
        have hacN : activeCount sN = activeCount r.1 := by
          show (r.1.processes.set pid p2).countP (fun q => q.is_active) =
            r.1.processes.countP (fun q => q.is_active)
          exact activeCount_set_same r.1.processes pid p2 hlen rfl
        unfold measureOf
        rw [hlenN, ← hreml,
          show remaining r.1 = remaining sN + 1 from by omega,
          Nat.mul_add, Nat.mul_one]
        omega

theorem au_simulate (s : SystemState) (pid : Nat) (hI : Inv s) (hau : AU s) :
    AU (simulate_binary_search s pid) := by
  simp only [simulate_binary_search]
  set p := getProc s pid with hp
  by_cases hguard :
      ((!p.is_active) || decide (p.num_searches ≤ p.current_search)) = true
  · rw [if_pos hguard]
    exact hau
  · rw [if_neg hguard]
    have hactive : p.is_active = true := by
      cases hb : p.is_active
      · rw [hb] at hguard
        simp at hguard
      · rfl
    have hunf : p.current_search < p.num_searches := by
      by_contra hc
      push_neg at hc
      apply hguard
      rw [Bool.or_eq_true]
      right
      exact decide_eq_true hc
    have hpid : pid < s.processes.length := by
      by_contra hcon
      rw [hp, getProc_default s pid (by omega)] at hactive
      exact absurd hactive (by decide)
    set key := p.search_indices.getD p.current_search 0 with hkeydef
    set Rn := (p.array_size - 1).toNat with hRdef
    set r := searchLoop s pid key 0 Rn with hrdef
    have hIr : Inv r.1 := by
      rw [hrdef]
      exact inv_searchLoop s pid key 0 Rn hI hpid (by rw [← hp]; exact hactive)
        (by rw [← hp]; exact hunf) (by rw [← hp, ← hRdef])
    have hst : StaticsEq s r.1 := by
      rw [hrdef]
      exact staticsEq_searchLoop s pid key 0 Rn
    by_cases hab : (!r.2.1) = true
    · rw [if_pos hab]
      have habf : r.2.1 = false := by
        cases hb : r.2.1
        · rfl
        · rw [hb] at hab
          exact absurd hab (by decide)
      obtain ⟨j, hj1, hj2, hj3, hj4⟩ :=
        searchLoop_survivor s pid key 0 Rn hI hpid (by rw [← hp]; exact hactive)
          (by rw [← hp]; exact hunf) (by rw [← hp, ← hRdef]) (hrdef ▸ habf)
      intro _
      exact ⟨j, hrdef ▸ hj1, hrdef ▸ hj3, hrdef ▸ hj4⟩
    · rw [if_neg hab]
      have hcomp : r.2.1 = true := by
        cases hb : r.2.1
        · rw [hb] at hab
          exact absurd rfl hab
        · rfl
      have hcact : (getProc r.1 pid).is_active = true := by
        rw [hrdef, searchLoop_complete_active s pid key 0 Rn (hrdef ▸ hcomp), ← hp]
        exact hactive
      have hlen : pid < r.1.processes.length := by
        rw [hst.1]
        exact hpid
      have hmemr : getProc r.1 pid ∈ r.1.processes := getProc_mem _ _ hlen
      have hcur : (getProc r.1 pid).current_search = p.current_search := (hst.2 pid).1
      have hnum : (getProc r.1 pid).num_searches = p.num_searches := (hst.2 pid).2.1
      have hunfr : (getProc r.1 pid).current_search < (getProc r.1 pid).num_searches := by
        rw [hcur, hnum]
        exact hunf
      have hnotq : pid ∉ r.1.swap_queue := by
        intro hin
        have h2 := (hIr.queue_mem pid hin).2.1
        rw [hcact] at h2
        cases h2
      by_cases hfin :
          (getProc r.1 pid).num_searches ≤ (getProc r.1 pid).current_search + 1
      · rw [if_pos hfin]
        rw [List.set_set]
        set u := unmapAll (getProc r.1 pid).page_table r.1.free_frames with hudef
        set pF : Process :=
          { page_table := u.1, array_size := (getProc r.1 pid).array_size,
            search_indices := (getProc r.1 pid).search_indices,
            num_searches := (getProc r.1 pid).num_searches,
            current_search := (getProc r.1 pid).current_search + 1,
            frames_allocated := 0,
            is_active := (getProc r.1 pid).is_active } with hpFdef
        set sF : SystemState :=
          { free_frames := u.2, processes := r.1.processes.set pid pF,
            swap_queue := r.1.swap_queue, page_accesses := r.1.page_accesses,
            page_faults := r.1.page_faults, num_swaps := r.1.num_swaps,
            min_active_processes := r.1.min_active_processes } with hsFdef
        rcases hq : r.1.swap_queue with _ | ⟨q0, qrest⟩
        · have hdq0 : drainQueue sF = sF := by
            show drainGo sF sF.swap_queue = sF
            rw [(hq : sF.swap_queue = [])]
            rfl
          rw [hdq0]
          intro hex
          obtain ⟨i, hi, hui⟩ := hex
          refine ⟨i, hi, ?_, hui⟩
          cases hb : (getProc sF i).is_active
          · exfalso
            have hi' : i < r.1.processes.length := by
              have : i < (r.1.processes.set pid pF).length := hi
              rwa [List.length_set] at this
            by_cases hip : pid = i
            · subst hip
              rw [hsFdef, getProc_mk, getD_set_cases, if_pos ⟨rfl, hlen⟩] at hb
              rw [show pF.is_active = (getProc r.1 pid).is_active from rfl, hcact] at hb
              cases hb
            · rw [hsFdef, getProc_mk, getD_set_cases, if_neg (by tauto)] at hb
              have hqin := hIr.inactive_queued i hi' hb
              rw [hq] at hqin
              cases hqin
          · rfl
        · have hq0m : q0 ∈ r.1.swap_queue := by
            rw [hq]
            exact List.mem_cons_self q0 qrest
          obtain ⟨hq01, hq02, hq03⟩ := hIr.queue_mem q0 hq0m
          have hq0ne : pid ≠ q0 := by
            intro he
            rw [he] at hnotq
            exact hnotq hq0m
          have hgF : getProc sF q0 = getProc r.1 q0 := by
            rw [hsFdef, getProc_mk, getD_set_cases, if_neg (by tauto)]
            rfl
          have hcv10 : ESSENTIAL_PAGES ≤ countValid (getProc r.1 pid).page_table := by
            apply countValid_ge_of_prefix_valid
            · rw [hIr.pt_len _ hmemr]
              unfold ESSENTIAL_PAGES PAGE_TABLE_SIZE
              omega
            · exact hIr.essential _ hmemr hcact hunfr
          have hflen : ESSENTIAL_PAGES ≤ sF.free_frames.length := by
            show ESSENTIAL_PAGES ≤ u.2.length
            rw [hudef, unmapAll_snd_length]
            unfold ESSENTIAL_PAGES at hcv10 ⊢
            omega
          have hdq : drainQueue sF =
              drainGo (swap_in_process { sF with swap_queue := qrest } q0) qrest := by
            show drainGo sF sF.swap_queue = _
            rw [(hq : sF.swap_queue = q0 :: qrest), drainGo_cons, if_pos hflen]
          have hq0lt : q0 < ({ sF with swap_queue := qrest } :
              SystemState).processes.length := by
            show q0 < (r.1.processes.set pid pF).length
            rw [List.length_set]
            exact hq01
          have hact1 : (getProc (swap_in_process { sF with swap_queue := qrest } q0)
              q0).is_active = true :=
            swap_in_self_active _ q0 hq0lt
          have hstAll : StaticsEq sF
              (drainGo (swap_in_process { sF with swap_queue := qrest } q0) qrest) := by
            apply staticsEq_trans (t := { sF with swap_queue := qrest })
            · exact staticsEq_of_processes_eq rfl
            · exact staticsEq_trans (staticsEq_swap_in _ q0) (staticsEq_drainGo _ _)
          intro _
          refine ⟨q0, ?_, ?_, ?_⟩
          · rw [hdq, hstAll.1]
            show q0 < (r.1.processes.set pid pF).length
            rw [List.length_set]
            exact hq01
          · rw [hdq]
            exact drainGo_active_mono qrest _ q0 hact1
          · rw [hdq]
            unfold unfinishedAt
            rw [(hstAll.2 q0).1, (hstAll.2 q0).2.1, hgF]
            exact hq03
      · rw [if_neg hfin]
        set p2 : Process :=
          { page_table := (getProc r.1 pid).page_table,
            array_size := (getProc r.1 pid).array_size,
            search_indices := (getProc r.1 pid).search_indices,
            num_searches := (getProc r.1 pid).num_searches,
            current_search := (getProc r.1 pid).current_search + 1,
            frames_allocated := (getProc r.1 pid).frames_allocated,
            is_active := (getProc r.1 pid).is_active } with hp2def
        set sN : SystemState :=
          { free_frames := r.1.free_frames, processes := r.1.processes.set pid p2,
            swap_queue := r.1.swap_queue, page_accesses := r.1.page_accesses,
            page_faults := r.1.page_faults, num_swaps := r.1.num_swaps,
            min_active_processes := r.1.min_active_processes } with hsNdef
        have hgN : getProc sN pid = p2 := by
          rw [hsNdef, getProc_mk, getD_set_cases, if_pos ⟨rfl, hlen⟩]
        intro _
        refine ⟨pid, ?_, ?_, ?_⟩
        · show pid < (r.1.processes.set pid p2).length
          rw [List.length_set]
          exact hlen
        · rw [hgN]
          rw [show p2.is_active = (getProc r.1 pid).is_active from rfl]
          exact hcact
        · unfold unfinishedAt
          rw [hgN]
          have h1 : p2.current_search = (getProc r.1 pid).current_search + 1 := rfl
          have h2 : p2.num_searches = (getProc r.1 pid).num_searches := rfl
          omega

theorem runFor_succ (n : Nat) (s : SystemState) (c : Nat) :
    runFor (n + 1) s c = if allDone s then s
      else runFor n (simulate_binary_search s c) ((c + 1) % s.processes.length) := rfl

theorem allDone_of_measure_zero (s : SystemState) (hm : measureOf s = 0) :
    allDone s = true := by
  unfold measureOf at hm
  have h1 : (s.processes.length + 1) * remaining s = 0 := by omega
  have hrem : remaining s = 0 := by
    rcases Nat.mul_eq_zero.mp h1 with h | h
    · omega
    · exact h
  unfold remaining at hrem
  unfold allDone
  rw [List.all_eq_true]
  intro p hp
  have hz := (List.sum_eq_zero_iff.mp hrem) _
    (List.mem_map_of_mem (fun q => q.num_searches - q.current_search) hp)
  exact decide_eq_true (by omega)

theorem exists_unfinished_of_not_allDone (s : SystemState) (hd : allDone s = false) :
    ∃ i, i < s.processes.length ∧ unfinishedAt s i := by
  unfold allDone at hd
  rw [List.all_eq_false] at hd
  obtain ⟨p, hp, hnp⟩ := hd
  obtain ⟨i, hi, hig⟩ := List.mem_iff_getElem.mp hp
  refine ⟨i, hi, ?_⟩
  unfold unfinishedAt
  have hg : getProc s i = p := by
    show s.processes.getD i defaultProcess = p
    rw [getD_eq_getElem s.processes i defaultProcess hi, hig]
  rw [hg]
  by_contra hc
  push_neg at hc
  exact hnp (decide_eq_true hc)

theorem au_init (inp : Input) (hv : validInput inp) : AU (initSystem inp) := by
  obtain ⟨hP1, hP2, hS1, hS2, hpi⟩ := hv
  have hsmall0 : ∀ f ∈ initFreeFrames, f < 32768 := by
    intro f hf
    rw [initFreeFrames_eq, List.mem_reverse] at hf
    have := List.mem_range.mp hf
    unfold USER_FRAMES at this
    omega
  have hlen0 : ESSENTIAL_PAGES * inp.procs.length ≤ initFreeFrames.length := by
    rw [initFreeFrames_eq, List.length_reverse, List.length_range]
    unfold MAX_PROCESSES at hP2
    unfold ESSENTIAL_PAGES USER_FRAMES
    omega
  obtain ⟨h1, h2, h3, h4⟩ :=
    initProcs_spec inp.numSearches inp.procs initFreeFrames hsmall0 hlen0
  intro hex
  obtain ⟨i, hi, hui⟩ := hex
  refine ⟨i, hi, ?_, hui⟩
  have hm := getProc_mem (initSystem inp) i hi
  exact (h4 _ hm).2.2.1

theorem run_inner (m : Nat)
    (ih : ∀ s' c', Inv s' → AU s' → measureOf s' ≤ m →
      ∃ n, allDone (runFor n s' c') = true) :
    ∀ (d : Nat) (s : SystemState) (c j : Nat), Inv s → AU s → measureOf s ≤ m + 1 →
      j < s.processes.length → (getProc s j).is_active = true → unfinishedAt s j →
      c < s.processes.length →
      (if c ≤ j then j - c else j + s.processes.length - c) ≤ d →
      ∃ n, allDone (runFor n s c) = true := by
  intro d
  induction d with
  | zero =>
    intro s c j hI hau hm hj hjact hjunf hc hd
    have hcj : c = j := by
      by_cases hle : c ≤ j
      · rw [if_pos hle] at hd
        omega
      · rw [if_neg hle] at hd
        omega
    subst hcj
    cases hdone : allDone s
    · have hlt := simulate_progress s c hI hjact hjunf
      obtain ⟨n, hn⟩ := ih (simulate_binary_search s c) ((c + 1) % s.processes.length)
        (inv_simulate s c hI) (au_simulate s c hI hau) (by omega)
      refine ⟨n + 1, ?_⟩
      rw [runFor_succ, if_neg (by rw [hdone]; decide)]
      exact hn
    · exact ⟨0, hdone⟩
  | succ d ihd =>
    intro s c j hI hau hm hj hjact hjunf hc hd
    cases hdone : allDone s
    · by_cases hcp : (getProc s c).is_active = true ∧ unfinishedAt s c
      · have hlt := simulate_progress s c hI hcp.1 hcp.2
        obtain ⟨n, hn⟩ := ih (simulate_binary_search s c) ((c + 1) % s.processes.length)
          (inv_simulate s c hI) (au_simulate s c hI hau) (by omega)
        refine ⟨n + 1, ?_⟩
        rw [runFor_succ, if_neg (by rw [hdone]; decide)]
        exact hn
      · have hnoop := simulate_noop s c hcp
        have hcj : c ≠ j := by
          intro he
          exact hcp (he ▸ ⟨hjact, hjunf⟩)
        have hlen0 : 0 < s.processes.length := by omega
        have hcnew : (c + 1) % s.processes.length < s.processes.length :=
          Nat.mod_lt _ hlen0
        have hdist : (if (c + 1) % s.processes.length ≤ j then
            j - (c + 1) % s.processes.length
            else j + s.processes.length - (c + 1) % s.processes.length) ≤ d := by
          rcases Nat.lt_or_ge (c + 1) s.processes.length with h1 | h1
          · rw [Nat.mod_eq_of_lt h1]
            by_cases h2 : c ≤ j
            · rw [if_pos h2] at hd
              rw [if_pos (by omega)]
              omega
            · rw [if_neg h2] at hd
              rw [if_neg (by omega)]
              omega
          · have hcl : c + 1 = s.processes.length := by omega
            rw [hcl, Nat.mod_self, if_pos (Nat.zero_le j)]
            rw [if_neg (by omega)] at hd
            omega
        obtain ⟨n, hn⟩ :=
          ihd s ((c + 1) % s.processes.length) j hI hau hm hj hjact hjunf hcnew hdist
        refine ⟨n + 1, ?_⟩
        rw [runFor_succ, if_neg (by rw [hdone]; decide), hnoop]
        exact hn
    · exact ⟨0, hdone⟩

theorem run_terminates_aux : ∀ (m : Nat) (s : SystemState) (c : Nat),
    Inv s → AU s → measureOf s ≤ m → ∃ n, allDone (runFor n s c) = true := by
  intro m
  induction m with
  | zero =>
    intro s c hI hau hm
    exact ⟨0, allDone_of_measure_zero s (by omega)⟩
  | succ m ih =>
    intro s c hI hau hm
    cases hdone : allDone s
    · obtain ⟨i, hi, hui⟩ := exists_unfinished_of_not_allDone s hdone
      obtain ⟨j, hj, hjact, hjunf⟩ := hau ⟨i, hi, hui⟩
      have hlen0 : 0 < s.processes.length := by omega
      by_cases hcl : c < s.processes.length
      · exact run_inner m ih _ s c j hI hau hm hj hjact hjunf hcl (le_refl _)
      · have hnoop : simulate_binary_search s c = s := by
          apply simulate_noop
          intro hcp
          rw [getProc_default s c (by omega)] at hcp
          exact absurd hcp.1 (by decide)
        have hcnew : (c + 1) % s.processes.length < s.processes.length :=
          Nat.mod_lt _ hlen0
        obtain ⟨n, hn⟩ := run_inner m ih _ s ((c + 1) % s.processes.length) j
          hI hau hm hj hjact hjunf hcnew (le_refl _)
        refine ⟨n + 1, ?_⟩
        rw [runFor_succ, if_neg (by rw [hdone]; decide), hnoop]
        exact hn
    · exact ⟨0, hdone⟩

/-- **C9** Termination: for every valid workload input, the main scheduling
loop terminates — after finitely many scheduler turns `all_done` holds, i.e.
every process's search cursor has reached its total search count, and the
simulation is never stuck with pending searches. -/
theorem simulation_terminates (inp : Input) (hv : validInput inp) :
    ∃ n, allDone (runFor n (initSystem inp) 0) = true :=
  run_terminates_aux (measureOf (initSystem inp)) (initSystem inp) 0
    (inv_init inp hv) (au_init inp hv) (le_refl _)

theorem simulation_terminates_witness :
    validInput inpW ∧ ∃ n, allDone (runFor n (initSystem inpW) 0) = true :=
  ⟨by decide, simulation_terminates inpW (by decide)⟩

end DemandPaging
